import Mathlib

/-
  Verification of the voxel-aabb-sweep core (src/src/index.ts, the
  Float64Array implementation at lines 364-807).

  The sweep marches an axis-aligned box through a voxel grid with a DDA
  raycast along the box's leading corner, testing the box's full leading
  face at every grid-boundary crossing.  Floating-point numbers are
  modelled by real numbers; the float value Infinity (which arises as
  1/0 in tDelta/tNext) is modelled by `none : Option ℝ`.  The mutable
  module-level scratch arrays become fields of an explicit state record
  that every operation threads; observable interactions (callback
  invocations, oracle queries, box translations) are collected in traces.
-/

namespace VoxelSweep

/-- Voxel oracle: integer cell coordinates plus the fractional offsets of the
box's leading edges within that cell (GetVoxelFunction in src/src/types.ts). -/
def GetVoxel : Type := ℤ → ℤ → ℤ → ℝ → ℝ → ℝ → Bool

/-- Collision callback: receives (cumulative distance, axis, direction,
left vector) and returns the stop flag together with the (possibly mutated
in place, hence returned) left vector. -/
def Callback : Type := ℝ → Fin 3 → ℤ → (Fin 3 → ℝ) → Bool × (Fin 3 → ℝ)

/-- One callback invocation as observed by the caller. -/
structure CbEvent where
  dist : ℝ
  axis : Fin 3
  dir : ℤ
  left : Fin 3 → ℝ

/-- The sweep context of src/src/index.ts (SweepContext plus the scratch
arrays tr/ldi/tri/step/tDelta/tNext/normed), as an explicit record. -/
structure SweepState where
  vec : Fin 3 → ℝ
  base : Fin 3 → ℝ
  max : Fin 3 → ℝ
  tr : Fin 3 → ℝ
  ldi : Fin 3 → ℤ
  tri : Fin 3 → ℤ
  step : Fin 3 → ℤ
  tDelta : Fin 3 → Option ℝ
  tNext : Fin 3 → Option ℝ
  normed : Fin 3 → ℝ
  cumulative_t : ℝ
  t : ℝ
  max_t : ℝ

/-- leadEdgeToInt (index.ts line 412): floor(coord - step*epsilon). -/
noncomputable def leadEdgeToInt (coord : ℝ) (st : ℤ) (epsilon : ℝ) : ℤ :=
  ⌊coord - (st : ℝ) * epsilon⌋

/-- trailEdgeToInt (index.ts line 420): floor(coord + step*epsilon). -/
noncomputable def trailEdgeToInt (coord : ℝ) (st : ℤ) (epsilon : ℝ) : ℤ :=
  ⌊coord + (st : ℝ) * epsilon⌋

/-- initSweep (index.ts line 429).  When max_t = 0 the source returns before
touching the per-axis arrays, so only t and max_t change in that case.
The float division 1/normed[i] yields Infinity exactly when normed[i] = 0,
and tNext[i] is Infinity exactly when tDelta[i] is; both are `none` here. -/
noncomputable def initSweep (eps : ℝ) (s : SweepState) : SweepState :=
  let m := Real.sqrt (s.vec 0 * s.vec 0 + s.vec 1 * s.vec 1 + s.vec 2 * s.vec 2)
  if m = 0 then { s with t := 0, max_t := 0 }
  else
    { s with
      t := 0
      max_t := m
      step := fun i => if 0 ≤ s.vec i then 1 else -1
      tr := fun i => if 0 ≤ s.vec i then s.base i else s.max i
      ldi := fun i =>
        if 0 ≤ s.vec i then leadEdgeToInt (s.max i) 1 eps
        else leadEdgeToInt (s.base i) (-1) eps
      tri := fun i =>
        if 0 ≤ s.vec i then trailEdgeToInt (s.base i) 1 eps
        else trailEdgeToInt (s.max i) (-1) eps
      normed := fun i => s.vec i / m
      tDelta := fun i => if s.vec i / m = 0 then none else some |1 / (s.vec i / m)|
      tNext := fun i =>
        if s.vec i / m = 0 then none
        else some (|1 / (s.vec i / m)| *
          (if 0 ≤ s.vec i
            then (leadEdgeToInt (s.max i) 1 eps : ℝ) + 1 - s.max i
            else s.base i - (leadEdgeToInt (s.base i) (-1) eps : ℝ))) }

/-- The strict order the advancer's comparisons induce on tNext entries,
`none` playing the role of the float Infinity. -/
def oLt : Option ℝ → Option ℝ → Prop
  | none, _ => False
  | some _, none => True
  | some a, some b => a < b

noncomputable instance : ∀ a b, Decidable (oLt a b) := fun a b =>
  match a, b with
  | none, _ => isFalse (fun h => h)
  | some _, none => isTrue trivial
  | some x, some y => inferInstanceAs (Decidable (x < y))

/-- The nested conditional of stepForward (index.ts lines 559-566) selecting
the axis of the nearest boundary. -/
noncomputable def selectAxis (n0 n1 n2 : Option ℝ) : Fin 3 :=
  if oLt n0 n1 then (if oLt n0 n2 then 0 else 2)
  else (if oLt n1 n2 then 1 else 2)

/-- stepForward (index.ts line 555).  In the `none` (Infinity) branch the
source sets t = Infinity, which makes the main loop's `t <= max_t` test
fail immediately; the model realizes the same exit with t = max_t + 1.
ldi and tNext are updated exactly as in the source in both branches
(finite + Infinity = Infinity); tr/tri then hold values the source never
reads again before the loop exits, so they are left unchanged there. -/
noncomputable def stepForward (eps : ℝ) (s : SweepState) : Fin 3 × SweepState :=
  let axis := selectAxis (s.tNext 0) (s.tNext 1) (s.tNext 2)
  match s.tNext axis with
  | some tn =>
    let dt := tn - s.t
    (axis,
      { s with
        t := tn
        ldi := Function.update s.ldi axis (s.ldi axis + s.step axis)
        tNext := Function.update s.tNext axis ((s.tDelta axis).map (fun d => tn + d))
        tr := fun i => s.tr i + dt * s.normed i
        tri := fun i => trailEdgeToInt (s.tr i + dt * s.normed i) (s.step i) eps })
  | none =>
    (axis,
      { s with
        t := s.max_t + 1
        ldi := Function.update s.ldi axis (s.ldi axis + s.step axis)
        tNext := Function.update s.tNext axis none })

/-- The integer coordinates the loop `for (v = a; v !== b; v += st)` visits,
in visit order (empty when the bounds are not oriented along st). -/
def axisRange (a b st : ℤ) : List ℤ :=
  (List.range ((b - a) * st).toNat).map (fun (k : ℕ) => a + st * (k : ℤ))

/-- Leading edge position on axis i (the leadX/leadY/leadZ hoists,
index.ts lines 481-483). -/
noncomputable def leadPos (s : SweepState) (i : Fin 3) : ℝ :=
  if 0 < s.step i then s.max i else s.base i

/-- d - floor(d): the fractional offset of the leading edge within cell c. -/
noncomputable def fracAt (s : SweepState) (i : Fin 3) (c : ℤ) : ℝ :=
  Int.fract (leadPos s i - (c : ℝ))

/-- Every integer coordinate triple checkCollision (index.ts line 465)
enumerates, in source order: axis 0 outermost, axis 1 middle, axis 2
innermost, each stepped by its own step.  Along the tested axis the range
starts at ldi, along the others at tri; all end exclusively at ldi + step. -/
def faceCoords (s : SweepState) (i_axis : Fin 3) : List (ℤ × ℤ × ℤ) :=
  List.product
    (axisRange (if i_axis = 0 then s.ldi 0 else s.tri 0) (s.ldi 0 + s.step 0) (s.step 0))
    (List.product
      (axisRange (if i_axis = 1 then s.ldi 1 else s.tri 1) (s.ldi 1 + s.step 1) (s.step 1))
      (axisRange (if i_axis = 2 then s.ldi 2 else s.tri 2) (s.ldi 2 + s.step 2) (s.step 2)))

/-- One oracle call of the collision query, with its fractional arguments. -/
noncomputable def oracleAt (gv : GetVoxel) (s : SweepState) (p : ℤ × ℤ × ℤ) : Bool :=
  gv p.1 p.2.1 p.2.2 (fracAt s 0 p.1) (fracAt s 1 p.2.1) (fracAt s 2 p.2.2)

/-- checkCollision: true iff some enumerated cell reports solid; the source
returns from inside the nested loops on the first solid result. -/
noncomputable def checkCollision (gv : GetVoxel) (s : SweepState) (i_axis : Fin 3) : Bool :=
  (faceCoords s i_axis).any (oracleAt gv s)

/-- The elements a short-circuiting scan actually inspects: everything up to
and including the first hit. -/
def probeList {α : Type} (f : α → Bool) : List α → List α
  | [] => []
  | a :: l => if f a then [a] else a :: probeList f l

/-- The coordinate triples one checkCollision call actually queries. -/
noncomputable def queries (gv : GetVoxel) (s : SweepState) (i_axis : Fin 3) :
    List (ℤ × ℤ × ℤ) :=
  probeList (oracleAt gv s) (faceCoords s i_axis)

/-- handleCollision (index.ts line 512): advance to the crossing, snap the
crossed leading edge with round, call the callback, and either stop or
re-initialize with the callback's remaining vector.  The Bool is the
"stop the sweep" result. -/
noncomputable def handleCollision (cb : Callback) (eps : ℝ) (s : SweepState) (axis : Fin 3) :
    Bool × SweepState × CbEvent :=
  let c := s.cumulative_t + s.t
  let dirAx := s.step axis
  let dn := s.t / s.max_t
  let base1 := fun i => s.base i + s.vec i * dn
  let max1 := fun i => s.max i + s.vec i * dn
  let lf := fun i => s.vec i - s.vec i * dn
  let base2 := if 0 < dirAx then base1 else Function.update base1 axis (round (base1 axis))
  let max2 := if 0 < dirAx then Function.update max1 axis (round (max1 axis)) else max1
  let r := cb c axis dirAx lf
  let ev : CbEvent := ⟨c, axis, dirAx, lf⟩
  if r.1 then
    (true, { s with cumulative_t := c, base := base2, max := max2 }, ev)
  else
    let s2 := initSweep eps { s with cumulative_t := c, base := base2, max := max2, vec := r.2 }
    (if s2.max_t = 0 then true else false, s2, ev)

/-- The no-obstruction exit of the main loop (index.ts lines 692-696). -/
noncomputable def finalAdvance (s : SweepState) : SweepState :=
  { s with
    cumulative_t := s.cumulative_t + s.max_t
    base := fun i => s.base i + s.vec i
    max := fun i => s.max i + s.vec i }

/-- Result of the core sweep: returned distance, final state, and the traces
of callback invocations and of queried cells. -/
structure SweepOut where
  dist : ℝ
  state : SweepState
  events : List CbEvent
  cells : List (ℤ × ℤ × ℤ)

/-- The main loop of sweep_impl (index.ts lines 677-689), fuel-indexed: one
unit of fuel per stepForward.  Running out of fuel is a model artifact;
theorems about complete runs supply enough fuel explicitly. -/
noncomputable def sweepLoop (gv : GetVoxel) (cb : Callback) (eps : ℝ) :
    ℕ → SweepState → SweepOut
  | 0, s => ⟨s.cumulative_t, s, [], []⟩
  | n + 1, s =>
    let p := stepForward eps s
    if p.2.t ≤ p.2.max_t then
      if checkCollision gv p.2 p.1 then
        let h := handleCollision cb eps p.2 p.1
        if h.1 then
          ⟨h.2.1.cumulative_t, h.2.1, [h.2.2], queries gv p.2 p.1⟩
        else
          let o := sweepLoop gv cb eps n h.2.1
          ⟨o.dist, o.state, h.2.2 :: o.events, queries gv p.2 p.1 ++ o.cells⟩
      else
        let o := sweepLoop gv cb eps n p.2
        ⟨o.dist, o.state, o.events, queries gv p.2 p.1 ++ o.cells⟩
    else
      ⟨p.2.cumulative_t + p.2.max_t, finalAdvance p.2, [], []⟩

/-- Result of the starting-voxel probe: whether sweep_impl must return 0 at
once, the (possibly re-initialized) state, and the traces. -/
structure StartOut where
  stop : Bool
  state : SweepState
  events : List CbEvent
  cells : List (ℤ × ℤ × ℤ)

/-- The body run for the first colliding axis of the starting-voxel probe
(index.ts lines 648-672): call the callback at distance 0, stop if it says
so, otherwise re-initialize only if it mutated the vector. -/
noncomputable def startAxis (cb : Callback) (eps : ℝ) (s : SweepState)
    (a : Fin 3) (qs : List (ℤ × ℤ × ℤ)) : StartOut :=
  let r := cb 0 a (s.step a) s.vec
  let ev : CbEvent := ⟨0, a, s.step a, s.vec⟩
  if r.1 then ⟨true, s, [ev], qs⟩
  else if ∀ i, r.2 i = s.vec i then ⟨false, s, [ev], qs⟩
  else
    let s2 := initSweep eps { s with vec := r.2 }
    ⟨if s2.max_t = 0 then true else false, s2, [ev], qs⟩

/-- The starting-voxel probe loop (index.ts lines 646-675): probe axes
0, 1, 2 in order, handle only the first colliding axis, then break. -/
noncomputable def startingCheck (gv : GetVoxel) (cb : Callback) (eps : ℝ)
    (s : SweepState) : StartOut :=
  if checkCollision gv s 0 then startAxis cb eps s 0 (queries gv s 0)
  else if checkCollision gv s 1 then
    startAxis cb eps s 1 (queries gv s 0 ++ queries gv s 1)
  else if checkCollision gv s 2 then
    startAxis cb eps s 2 (queries gv s 0 ++ queries gv s 1 ++ queries gv s 2)
  else ⟨false, s, [], queries gv s 0 ++ queries gv s 1 ++ queries gv s 2⟩

/-- The working state at entry of sweep_impl: vec/base/max are freshly copied
from the caller, every scratch array still holds values the algorithm never
reads before initSweep overwrites them (modelled by fixed defaults). -/
noncomputable def mkState (vec base mx : Fin 3 → ℝ) : SweepState :=
  ⟨vec, base, mx, fun _ => 0, fun _ => 0, fun _ => 0, fun _ => 1,
    fun _ => none, fun _ => none, fun _ => 0, 0, 0, 0⟩

/-- sweep_impl (index.ts line 611). -/
noncomputable def sweepImpl (gv : GetVoxel) (cb : Callback) (eps : ℝ) (csv : Bool)
    (fuel : ℕ) (vec base mx : Fin 3 → ℝ) : SweepOut :=
  let s1 := initSweep eps (mkState vec base mx)
  if s1.max_t = 0 then ⟨0, s1, [], []⟩
  else if csv then
    let st := startingCheck gv cb eps s1
    if st.stop then ⟨0, st.state, st.events, st.cells⟩
    else
      let o := sweepLoop gv cb eps fuel st.state
      ⟨o.dist, o.state, st.events ++ o.events, st.cells ++ o.cells⟩
  else sweepLoop gv cb eps fuel s1

/-- The caller's AABB collaborator: two corners; translate(v) adds v in
place to both. -/
structure Box where
  base : Fin 3 → ℝ
  max : Fin 3 → ℝ

/-- Observable outcome of one public sweep call: returned distance, the
caller's box afterwards, the arguments of every box.translate call, the
callback and oracle traces, and the caller's dir buffer at return. -/
structure SweepResult where
  dist : ℝ
  box : Box
  translateCalls : List (Fin 3 → ℝ)
  cbEvents : List CbEvent
  cells : List (ℤ × ℤ × ℤ)
  dirOut : Fin 3 → ℝ

/-- The public entry point sweep (index.ts line 767).  dir is copied into the
working vector and only read afterwards; unless noTranslate, the box is
translated once by the final-minus-original leading corner per axis. -/
noncomputable def sweep (gv : GetVoxel) (box : Box) (dir : Fin 3 → ℝ) (cb : Callback)
    (noTranslate : Bool) (eps : ℝ) (csv : Bool) (fuel : ℕ) : SweepResult :=
  let o := sweepImpl gv cb eps csv fuel dir box.base box.max
  if noTranslate then ⟨o.dist, box, [], o.events, o.cells, dir⟩
  else
    let result := fun i =>
      if 0 < dir i then o.state.max i - box.max i else o.state.base i - box.base i
    ⟨o.dist,
      ⟨fun i => box.base i + result i, fun i => box.max i + result i⟩,
      [result], o.events, o.cells, dir⟩

/-- Per-axis bound on how many more times the loop can cross a boundary on
axis i before t passes max_t. -/
noncomputable def axisFuel (s : SweepState) (i : Fin 3) : ℕ :=
  match s.tNext i, s.tDelta i with
  | some tn, some td => if tn ≤ s.max_t then (⌈(s.max_t - tn) / td⌉.toNat + 1) else 0
  | _, _ => 0

/-- Total bound on the number of remaining loop iterations. -/
noncomputable def loopMeasure (s : SweepState) : ℕ :=
  axisFuel s 0 + axisFuel s 1 + axisFuel s 2

/-- tNext and tDelta are Infinity together, and finite tDelta is positive:
exactly the shape initSweep produces. -/
def Coherent (s : SweepState) : Prop :=
  (∀ i, s.tNext i = none ↔ s.tDelta i = none) ∧ ∀ i d, s.tDelta i = some d → 0 < d

/-- The oracle reports empty at every cell the current box placement could
make the collision query ask about. -/
def missesAll (gv : GetVoxel) (s : SweepState) : Prop :=
  ∀ x y z : ℤ, gv x y z (fracAt s 0 x) (fracAt s 1 y) (fracAt s 2 z) = false

section Advancer

/-- The advancer returns the axis the nested conditional selects. -/
lemma stepForward_fst (eps : ℝ) (s : SweepState) :
    (stepForward eps s).1 = selectAxis (s.tNext 0) (s.tNext 1) (s.tNext 2) := by
  rcases h : s.tNext (selectAxis (s.tNext 0) (s.tNext 1) (s.tNext 2)) with _ | tn <;>
    simp [stepForward, h]

/-- Exhaustive description of the advancer's branch structure. -/
lemma selectAxis_cases (n0 n1 n2 : Option ℝ) :
    (selectAxis n0 n1 n2 = 0 ∧ oLt n0 n1 ∧ oLt n0 n2) ∨
      (selectAxis n0 n1 n2 = 1 ∧ ¬oLt n0 n1 ∧ oLt n1 n2) ∨
      (selectAxis n0 n1 n2 = 2 ∧
        ((oLt n0 n1 ∧ ¬oLt n0 n2) ∨ (¬oLt n0 n1 ∧ ¬oLt n1 n2))) := by
  have hdef : selectAxis n0 n1 n2 =
      if oLt n0 n1 then (if oLt n0 n2 then 0 else 2)
      else (if oLt n1 n2 then 1 else 2) := rfl
  by_cases h1 : oLt n0 n1
  · by_cases h2 : oLt n0 n2
    · exact Or.inl ⟨hdef.trans (by rw [if_pos h1, if_pos h2]), h1, h2⟩
    · exact Or.inr (Or.inr ⟨hdef.trans (by rw [if_pos h1, if_neg h2]), Or.inl ⟨h1, h2⟩⟩)
  · by_cases h3 : oLt n1 n2
    · exact Or.inr (Or.inl ⟨hdef.trans (by rw [if_neg h1, if_pos h3]), h1, h3⟩)
    · exact Or.inr (Or.inr ⟨hdef.trans (by rw [if_neg h1, if_neg h3]), Or.inr ⟨h1, h3⟩⟩)

lemma not_oLt_none {b : Option ℝ} : ¬ oLt none b := fun h => h

/-- The tNext entries as a lookup indexed by axis. -/
def nthOpt (n0 n1 n2 : Option ℝ) : Fin 3 → Option ℝ
  | 0 => n0
  | 1 => n1
  | 2 => n2

lemma nthOpt_eq (f : Fin 3 → Option ℝ) (i : Fin 3) :
    nthOpt (f 0) (f 1) (f 2) i = f i := by
  fin_cases i <;> rfl

/-- Unless every tNext entry is infinite, the advancer selects an axis with a
finite tNext. -/
lemma selectAxis_isSome (n0 n1 n2 : Option ℝ)
    (h : n0 ≠ none ∨ n1 ≠ none ∨ n2 ≠ none) :
    nthOpt n0 n1 n2 (selectAxis n0 n1 n2) ≠ none := by
  rcases n0 with _ | a <;> rcases n1 with _ | b <;> rcases n2 with _ | c <;>
    simp only [selectAxis] <;> split_ifs <;> simp_all [nthOpt, oLt]

end Advancer

section QueryEnumeration

lemma axisRange_nodup (a b st : ℤ) (h : st ≠ 0) : (axisRange a b st).Nodup := by
  unfold axisRange
  refine List.Nodup.map ?_ (List.nodup_range _)
  intro k1 k2 hk
  simp only at hk
  have h2 : st * (k1 : ℤ) = st * (k2 : ℤ) := by linarith
  have h3 := mul_left_cancel₀ h h2
  exact_mod_cast h3

lemma faceCoords_nodup (s : SweepState) (a : Fin 3)
    (hst : ∀ i, s.step i = 1 ∨ s.step i = -1) : (faceCoords s a).Nodup := by
  have hne : ∀ i, s.step i ≠ 0 := by
    intro i; rcases hst i with h | h <;> rw [h] <;> decide
  exact List.Nodup.product (axisRange_nodup _ _ _ (hne 0))
    (List.Nodup.product (axisRange_nodup _ _ _ (hne 1)) (axisRange_nodup _ _ _ (hne 2)))

lemma probeList_sublist {α : Type} (f : α → Bool) (l : List α) :
    List.Sublist (probeList f l) l := by
  induction l with
  | nil => exact List.Sublist.refl []
  | cons a l ih =>
    unfold probeList
    split
    · exact (List.nil_sublist l).cons₂ a
    · exact ih.cons₂ a

lemma probeList_pre {α : Type} (f : α → Bool) (l : List α) :
    probeList f l <+: l := by
  induction l with
  | nil => exact ⟨[], rfl⟩
  | cons a l ih =>
    unfold probeList
    split
    · exact ⟨l, rfl⟩
    · obtain ⟨t, ht⟩ := ih
      exact ⟨t, by rw [List.cons_append, ht]⟩

lemma probeList_dropLast_false {α : Type} (f : α → Bool) (l : List α) :
    ∀ a ∈ (probeList f l).dropLast, f a = false := by
  induction l with
  | nil => intro a ha; simp [probeList] at ha
  | cons b l ih =>
    intro a ha
    by_cases hfb : f b
    · simp [probeList, hfb] at ha
    · simp only [probeList] at ha
      rw [if_neg hfb] at ha
      rcases hl : probeList f l with _ | ⟨c, r⟩
      · rw [hl] at ha; simp at ha
      · rw [hl, List.dropLast_cons₂] at ha
        rcases List.mem_cons.1 ha with rfl | ha'
        · simpa using hfb
        · refine ih a ?_
          rw [hl]
          exact ha'

end QueryEnumeration

section StateLemmas

@[simp] lemma mkState_vec (v b m : Fin 3 → ℝ) : (mkState v b m).vec = v := rfl

@[simp] lemma mkState_base (v b m : Fin 3 → ℝ) : (mkState v b m).base = b := rfl

@[simp] lemma mkState_max (v b m : Fin 3 → ℝ) : (mkState v b m).max = m := rfl

@[simp] lemma mkState_step (v b m : Fin 3 → ℝ) : (mkState v b m).step = fun _ => 1 := rfl

/-- Shorthand for the length initSweep computes for a state's vector. -/
noncomputable def vecLen (s : SweepState) : ℝ :=
  Real.sqrt (s.vec 0 * s.vec 0 + s.vec 1 * s.vec 1 + s.vec 2 * s.vec 2)

lemma initSweep_of_len_zero (eps : ℝ) (s : SweepState) (h : vecLen s = 0) :
    initSweep eps s = { s with t := 0, max_t := 0 } := by
  unfold vecLen at h
  simp only [initSweep]
  rw [if_pos h]

lemma initSweep_max_t (eps : ℝ) (s : SweepState) :
    (initSweep eps s).max_t = vecLen s := by
  unfold vecLen
  simp only [initSweep]
  split_ifs with h
  · exact h.symm
  · rfl

lemma initSweep_t (eps : ℝ) (s : SweepState) : (initSweep eps s).t = 0 := by
  simp only [initSweep]
  split_ifs <;> rfl

lemma initSweep_vec (eps : ℝ) (s : SweepState) : (initSweep eps s).vec = s.vec := by
  simp only [initSweep]
  split_ifs <;> rfl

lemma initSweep_base (eps : ℝ) (s : SweepState) : (initSweep eps s).base = s.base := by
  simp only [initSweep]
  split_ifs <;> rfl

lemma initSweep_max (eps : ℝ) (s : SweepState) : (initSweep eps s).max = s.max := by
  simp only [initSweep]
  split_ifs <;> rfl

lemma initSweep_cum (eps : ℝ) (s : SweepState) :
    (initSweep eps s).cumulative_t = s.cumulative_t := by
  simp only [initSweep]
  split_ifs <;> rfl

lemma initSweep_step (eps : ℝ) (s : SweepState) (h : vecLen s ≠ 0) :
    (initSweep eps s).step = fun i => if 0 ≤ s.vec i then 1 else -1 := by
  unfold vecLen at h
  simp only [initSweep]
  rw [if_neg h]

lemma initSweep_tr (eps : ℝ) (s : SweepState) (h : vecLen s ≠ 0) :
    (initSweep eps s).tr = fun i => if 0 ≤ s.vec i then s.base i else s.max i := by
  unfold vecLen at h
  simp only [initSweep]
  rw [if_neg h]

lemma initSweep_ldi (eps : ℝ) (s : SweepState) (h : vecLen s ≠ 0) :
    (initSweep eps s).ldi = fun i =>
      if 0 ≤ s.vec i then leadEdgeToInt (s.max i) 1 eps
      else leadEdgeToInt (s.base i) (-1) eps := by
  unfold vecLen at h
  simp only [initSweep]
  rw [if_neg h]

lemma initSweep_tri (eps : ℝ) (s : SweepState) (h : vecLen s ≠ 0) :
    (initSweep eps s).tri = fun i =>
      if 0 ≤ s.vec i then trailEdgeToInt (s.base i) 1 eps
      else trailEdgeToInt (s.max i) (-1) eps := by
  unfold vecLen at h
  simp only [initSweep]
  rw [if_neg h]

lemma initSweep_normed (eps : ℝ) (s : SweepState) (h : vecLen s ≠ 0) :
    (initSweep eps s).normed = fun i => s.vec i / vecLen s := by
  unfold vecLen at h ⊢
  simp only [initSweep]
  rw [if_neg h]

lemma initSweep_tDelta (eps : ℝ) (s : SweepState) (h : vecLen s ≠ 0) :
    (initSweep eps s).tDelta = fun i =>
      if s.vec i / vecLen s = 0 then none else some |1 / (s.vec i / vecLen s)| := by
  unfold vecLen at h ⊢
  simp only [initSweep]
  rw [if_neg h]

lemma initSweep_tNext (eps : ℝ) (s : SweepState) (h : vecLen s ≠ 0) :
    (initSweep eps s).tNext = fun i =>
      if s.vec i / vecLen s = 0 then none
      else some (|1 / (s.vec i / vecLen s)| *
        (if 0 ≤ s.vec i
          then (leadEdgeToInt (s.max i) 1 eps : ℝ) + 1 - s.max i
          else s.base i - (leadEdgeToInt (s.base i) (-1) eps : ℝ))) := by
  unfold vecLen at h ⊢
  simp only [initSweep]
  rw [if_neg h]

end StateLemmas

section OrderLemmas

lemma oLt_irrefl (a : Option ℝ) : ¬ oLt a a := by
  rcases a with _ | x
  · exact fun h => h
  · exact lt_irrefl x

lemma oLt_asymm {a b : Option ℝ} (h : oLt a b) : ¬ oLt b a := by
  rcases a with _ | x <;> rcases b with _ | y <;> simp_all [oLt] <;> linarith

lemma oLt_trans {a b c : Option ℝ} (h1 : oLt a b) (h2 : oLt b c) : oLt a c := by
  rcases a with _ | x <;> rcases b with _ | y <;> rcases c with _ | z <;>
    simp_all [oLt] <;> linarith

lemma oLe_trans {a b c : Option ℝ} (h1 : ¬ oLt a b) (h2 : ¬ oLt b c) : ¬ oLt a c := by
  rcases a with _ | x <;> rcases b with _ | y <;> rcases c with _ | z <;>
    simp_all [oLt] <;> linarith

end OrderLemmas

/-- A concrete sweep state whose tNext values are (1, 1, 2): axes 0 and 1 are
tied strictly below axis 2. -/
noncomputable def tieS : SweepState :=
  { mkState (fun _ => 0) (fun _ => 0) (fun _ => 0) with
    tNext := fun i => if i = 2 then some 2 else some 1 }

/-- Claim C1 (counterexample): at tNext = (1, 1, 2) — so tNext[0] = tNext[1] <
tNext[2] — the step advancer crosses axis 1, not axis 0 as the claim states:
the nested conditional of stepForward falls to its else-branch on exact ties. -/
theorem stepForward_tie_cex :
    tieS.tNext 0 = tieS.tNext 1 ∧ oLt (tieS.tNext 1) (tieS.tNext 2) ∧
      (stepForward 0 tieS).1 = 1 ∧ (stepForward 0 tieS).1 ≠ 0 := by
  have h0 : tieS.tNext 0 = some 1 := by simp [tieS, mkState]
  have h1 : tieS.tNext 1 = some 1 := by simp [tieS, mkState]
  have h2 : tieS.tNext 2 = some 2 := by simp [tieS, mkState]
  have hsel : (stepForward 0 tieS).1 = 1 := by
    rw [stepForward_fst, h0, h1, h2]
    simp only [selectAxis, oLt]
    norm_num
  exact ⟨by rw [h0, h1], by rw [h1, h2]; norm_num [oLt], hsel, by rw [hsel]; decide⟩

/-- Claim C1 (amended): the DDA step advancer crosses an axis whose tNext is
minimal, but exact ties resolve to the higher-numbered axis (2 before 1
before 0), not the lower one: tNext[0] = tNext[1] < tNext[2] gives axis 1,
tNext[1] = tNext[2] < tNext[0] gives axis 2, and three-way ties give axis 2. -/
theorem stepForward_argmin_tie (eps : ℝ) (s : SweepState) :
    (∀ i : Fin 3, ¬ oLt (s.tNext i) (s.tNext (stepForward eps s).1)) ∧
      (s.tNext 0 = s.tNext 1 → oLt (s.tNext 1) (s.tNext 2) → (stepForward eps s).1 = 1) ∧
      (s.tNext 1 = s.tNext 2 → oLt (s.tNext 2) (s.tNext 0) → (stepForward eps s).1 = 2) ∧
      (s.tNext 0 = s.tNext 1 → s.tNext 1 = s.tNext 2 → (stepForward eps s).1 = 2) := by
  rw [stepForward_fst]
  refine ⟨?_, ?_, ?_, ?_⟩
  · intro i
    rcases selectAxis_cases (s.tNext 0) (s.tNext 1) (s.tNext 2) with
        ⟨ha, h01, h02⟩ | ⟨ha, h01, h12⟩ | ⟨ha, ⟨h01, h02⟩ | ⟨h01, h12⟩⟩ <;> rw [ha] <;>
      fin_cases i
    · exact oLt_irrefl _
    · exact oLt_asymm h01
    · exact oLt_asymm h02
    · exact h01
    · exact oLt_irrefl _
    · exact oLt_asymm h12
    · exact h02
    · exact fun h => h02 (oLt_trans h01 h)
    · exact oLt_irrefl _
    · exact oLe_trans h01 h12
    · exact h12
    · exact oLt_irrefl _
  · intro h01 h12
    rcases selectAxis_cases (s.tNext 0) (s.tNext 1) (s.tNext 2) with
        ⟨ha, g01, g02⟩ | ⟨ha, g01, g12⟩ | ⟨ha, ⟨g01, g02⟩ | ⟨g01, g12⟩⟩
    · exact absurd g01 (h01 ▸ oLt_irrefl _)
    · exact ha
    · exact absurd g01 (h01 ▸ oLt_irrefl _)
    · exact absurd h12 g12
  · intro h12 h20
    rcases selectAxis_cases (s.tNext 0) (s.tNext 1) (s.tNext 2) with
        ⟨ha, g01, g02⟩ | ⟨ha, g01, g12⟩ | ⟨ha, ⟨g01, g02⟩ | ⟨g01, g12⟩⟩
    · exact absurd (oLt_trans g02 h20) (oLt_irrefl _)
    · exact absurd g12 (h12 ▸ oLt_irrefl _)
    · exact ha
    · exact ha
  · intro h01 h12
    rcases selectAxis_cases (s.tNext 0) (s.tNext 1) (s.tNext 2) with
        ⟨ha, g01, g02⟩ | ⟨ha, g01, g12⟩ | ⟨ha, ⟨g01, g02⟩ | ⟨g01, g12⟩⟩
    · exact absurd g01 (h01 ▸ oLt_irrefl _)
    · exact absurd g12 (h12 ▸ oLt_irrefl _)
    · exact ha
    · exact ha

/-- A concrete state with a three-way tie tNext = (3, 3, 3). -/
noncomputable def wS : SweepState :=
  { mkState (fun _ => 0) (fun _ => 0) (fun _ => 0) with tNext := fun _ => some 3 }

/-- Witness for the amended C1 theorem: at the three-way tie (3, 3, 3) the
advancer crosses axis 2. -/
theorem stepForward_argmin_tie_wit :
    wS.tNext 0 = wS.tNext 1 ∧ wS.tNext 1 = wS.tNext 2 ∧ (stepForward 0 wS).1 = 2 :=
  ⟨rfl, rfl, (stepForward_argmin_tie 0 wS).2.2.2 rfl rfl⟩

/-- Claim C2: within one leading-face collision check the integer coordinate
triples passed to the oracle are pairwise distinct, they form a front segment
of the fixed nested enumeration faceCoords (axis 0 outermost, axis 1 middle,
axis 2 innermost, each coordinate stepped by its own step direction), and
every queried triple except possibly the last — the first solid one, where
the scan stops — reported empty. -/
theorem checkCollision_queries_nodup (gv : GetVoxel) (s : SweepState) (a : Fin 3)
    (hst : ∀ i, s.step i = 1 ∨ s.step i = -1) :
    (queries gv s a).Nodup ∧ queries gv s a <+: faceCoords s a ∧
      ∀ p ∈ (queries gv s a).dropLast, oracleAt gv s p = false :=
  ⟨(probeList_sublist _ _).nodup (faceCoords_nodup s a hst), probeList_pre _ _,
    probeList_dropLast_false _ _⟩

/-- Witness for C2 at a concrete all-zero state (step = (1,1,1)) and the
always-empty oracle. -/
theorem checkCollision_queries_nodup_wit :
    (∀ i, (mkState (fun _ => 0) (fun _ => 0) (fun _ => 0)).step i = 1 ∨
        (mkState (fun _ => 0) (fun _ => 0) (fun _ => 0)).step i = -1) ∧
      ((queries (fun _ _ _ _ _ _ => false) (mkState (fun _ => 0) (fun _ => 0) (fun _ => 0)) 0).Nodup ∧
        queries (fun _ _ _ _ _ _ => false) (mkState (fun _ => 0) (fun _ => 0) (fun _ => 0)) 0 <+:
          faceCoords (mkState (fun _ => 0) (fun _ => 0) (fun _ => 0)) 0 ∧
        ∀ p ∈ (queries (fun _ _ _ _ _ _ => false)
            (mkState (fun _ => 0) (fun _ => 0) (fun _ => 0)) 0).dropLast,
          oracleAt (fun _ _ _ _ _ _ => false) (mkState (fun _ => 0) (fun _ => 0) (fun _ => 0)) p = false) :=
  ⟨fun _ => Or.inl rfl,
    checkCollision_queries_nodup (fun _ _ _ _ _ _ => false) _ 0 (fun _ => Or.inl rfl)⟩

/-- Claim C7: for a zero-length direction vector the sweep returns 0, never
invokes the collision callback and never queries the voxel oracle, for every
oracle and every configuration of noTranslate, epsilon and checkStartingVoxel. -/
theorem sweep_zero_dir (gv : GetVoxel) (box : Box) (dir : Fin 3 → ℝ) (cb : Callback)
    (nt : Bool) (eps : ℝ) (csv : Bool) (fuel : ℕ) (hdir : ∀ i, dir i = 0) :
    (sweep gv box dir cb nt eps csv fuel).dist = 0 ∧
      (sweep gv box dir cb nt eps csv fuel).cbEvents = [] ∧
      (sweep gv box dir cb nt eps csv fuel).cells = [] := by
  have hv : vecLen (mkState dir box.base box.max) = 0 := by
    simp [vecLen, hdir 0, hdir 1, hdir 2]
  have himpl : sweepImpl gv cb eps csv fuel dir box.base box.max =
      ⟨0, initSweep eps (mkState dir box.base box.max), [], []⟩ := by
    unfold sweepImpl
    rw [if_pos ((initSweep_max_t eps _).trans hv)]
  unfold sweep
  rw [himpl]
  cases nt <;> exact ⟨rfl, rfl, rfl⟩

/-- Witness for C7 at the zero vector against an always-solid oracle with
checkStartingVoxel on. -/
theorem sweep_zero_dir_wit :
    (∀ i : Fin 3, (fun (_ : Fin 3) => (0 : ℝ)) i = 0) ∧
      ((sweep (fun _ _ _ _ _ _ => true) ⟨fun _ => 0, fun _ => 1⟩ (fun _ => 0)
          (fun _ _ _ l => (false, l)) false (1/2) true 5).dist = 0 ∧
        (sweep (fun _ _ _ _ _ _ => true) ⟨fun _ => 0, fun _ => 1⟩ (fun _ => 0)
          (fun _ _ _ l => (false, l)) false (1/2) true 5).cbEvents = [] ∧
        (sweep (fun _ _ _ _ _ _ => true) ⟨fun _ => 0, fun _ => 1⟩ (fun _ => 0)
          (fun _ _ _ l => (false, l)) false (1/2) true 5).cells = []) :=
  ⟨fun _ => rfl, sweep_zero_dir _ _ _ _ _ _ _ _ (fun _ => rfl)⟩

/-- Claim C8: with noTranslate the caller's box is returned untouched and
box.translate is never invoked; without it the box is changed by exactly one
translate call whose vector is, per axis, the final minus the original value
of the leading corner (the max corner when dir[i] > 0, the base corner
otherwise), added in place to both corners. -/
theorem sweep_translate_frame (gv : GetVoxel) (box : Box) (dir : Fin 3 → ℝ)
    (cb : Callback) (eps : ℝ) (csv : Bool) (fuel : ℕ) :
    (sweep gv box dir cb true eps csv fuel).box = box ∧
      (sweep gv box dir cb true eps csv fuel).translateCalls = [] ∧
      (sweep gv box dir cb false eps csv fuel).translateCalls =
        [fun i => if 0 < dir i
          then (sweepImpl gv cb eps csv fuel dir box.base box.max).state.max i - box.max i
          else (sweepImpl gv cb eps csv fuel dir box.base box.max).state.base i - box.base i] ∧
      (∀ i, (sweep gv box dir cb false eps csv fuel).box.base i =
        box.base i + (if 0 < dir i
          then (sweepImpl gv cb eps csv fuel dir box.base box.max).state.max i - box.max i
          else (sweepImpl gv cb eps csv fuel dir box.base box.max).state.base i - box.base i)) ∧
      ∀ i, (sweep gv box dir cb false eps csv fuel).box.max i =
        box.max i + (if 0 < dir i
          then (sweepImpl gv cb eps csv fuel dir box.base box.max).state.max i - box.max i
          else (sweepImpl gv cb eps csv fuel dir box.base box.max).state.base i - box.base i) :=
  ⟨rfl, rfl, rfl, fun _ => rfl, fun _ => rfl⟩

/-- Claim C10: sweep never mutates the caller's direction vector: its
components are copied into the working vector at entry (sweepImpl receives a
copy), the callback only ever receives the internal left buffer, and the dir
buffer the caller passed holds its entry values at return. -/
theorem sweep_dir_readonly (gv : GetVoxel) (box : Box) (dir : Fin 3 → ℝ)
    (cb : Callback) (nt : Bool) (eps : ℝ) (csv : Bool) (fuel : ℕ) :
    (sweep gv box dir cb nt eps csv fuel).dirOut = dir := by
  cases nt <;> rfl

section StepForwardLemmas

/-- The advancer's full effect when the selected tNext is finite. -/
lemma stepForward_of_some (eps : ℝ) (s : SweepState) (tn : ℝ)
    (h : s.tNext (selectAxis (s.tNext 0) (s.tNext 1) (s.tNext 2)) = some tn) :
    stepForward eps s = (selectAxis (s.tNext 0) (s.tNext 1) (s.tNext 2),
      { s with
        t := tn
        ldi := Function.update s.ldi (selectAxis (s.tNext 0) (s.tNext 1) (s.tNext 2))
          (s.ldi (selectAxis (s.tNext 0) (s.tNext 1) (s.tNext 2)) +
            s.step (selectAxis (s.tNext 0) (s.tNext 1) (s.tNext 2)))
        tNext := Function.update s.tNext (selectAxis (s.tNext 0) (s.tNext 1) (s.tNext 2))
          ((s.tDelta (selectAxis (s.tNext 0) (s.tNext 1) (s.tNext 2))).map (fun d => tn + d))
        tr := fun i => s.tr i + (tn - s.t) * s.normed i
        tri := fun i => trailEdgeToInt (s.tr i + (tn - s.t) * s.normed i) (s.step i) eps }) := by
  simp [stepForward, h]

/-- The advancer's full effect when the selected tNext is infinite. -/
lemma stepForward_of_none (eps : ℝ) (s : SweepState)
    (h : s.tNext (selectAxis (s.tNext 0) (s.tNext 1) (s.tNext 2)) = none) :
    stepForward eps s = (selectAxis (s.tNext 0) (s.tNext 1) (s.tNext 2),
      { s with
        t := s.max_t + 1
        ldi := Function.update s.ldi (selectAxis (s.tNext 0) (s.tNext 1) (s.tNext 2))
          (s.ldi (selectAxis (s.tNext 0) (s.tNext 1) (s.tNext 2)) +
            s.step (selectAxis (s.tNext 0) (s.tNext 1) (s.tNext 2)))
        tNext := Function.update s.tNext (selectAxis (s.tNext 0) (s.tNext 1) (s.tNext 2)) none }) := by
  simp [stepForward, h]

lemma stepForward_vec (eps : ℝ) (s : SweepState) : (stepForward eps s).2.vec = s.vec := by
  rcases h : s.tNext (selectAxis (s.tNext 0) (s.tNext 1) (s.tNext 2)) with _ | tn <;>
    simp [stepForward, h]

lemma stepForward_base (eps : ℝ) (s : SweepState) : (stepForward eps s).2.base = s.base := by
  rcases h : s.tNext (selectAxis (s.tNext 0) (s.tNext 1) (s.tNext 2)) with _ | tn <;>
    simp [stepForward, h]

lemma stepForward_max (eps : ℝ) (s : SweepState) : (stepForward eps s).2.max = s.max := by
  rcases h : s.tNext (selectAxis (s.tNext 0) (s.tNext 1) (s.tNext 2)) with _ | tn <;>
    simp [stepForward, h]

lemma stepForward_step (eps : ℝ) (s : SweepState) : (stepForward eps s).2.step = s.step := by
  rcases h : s.tNext (selectAxis (s.tNext 0) (s.tNext 1) (s.tNext 2)) with _ | tn <;>
    simp [stepForward, h]

lemma stepForward_normed (eps : ℝ) (s : SweepState) :
    (stepForward eps s).2.normed = s.normed := by
  rcases h : s.tNext (selectAxis (s.tNext 0) (s.tNext 1) (s.tNext 2)) with _ | tn <;>
    simp [stepForward, h]

lemma stepForward_tDelta (eps : ℝ) (s : SweepState) :
    (stepForward eps s).2.tDelta = s.tDelta := by
  rcases h : s.tNext (selectAxis (s.tNext 0) (s.tNext 1) (s.tNext 2)) with _ | tn <;>
    simp [stepForward, h]

lemma stepForward_cum (eps : ℝ) (s : SweepState) :
    (stepForward eps s).2.cumulative_t = s.cumulative_t := by
  rcases h : s.tNext (selectAxis (s.tNext 0) (s.tNext 1) (s.tNext 2)) with _ | tn <;>
    simp [stepForward, h]

lemma stepForward_max_t (eps : ℝ) (s : SweepState) :
    (stepForward eps s).2.max_t = s.max_t := by
  rcases h : s.tNext (selectAxis (s.tNext 0) (s.tNext 1) (s.tNext 2)) with _ | tn <;>
    simp [stepForward, h]

lemma leadPos_stepForward (eps : ℝ) (s : SweepState) (i : Fin 3) :
    leadPos (stepForward eps s).2 i = leadPos s i := by
  unfold leadPos
  rw [stepForward_step, stepForward_max, stepForward_base]

lemma fracAt_stepForward (eps : ℝ) (s : SweepState) (i : Fin 3) (c : ℤ) :
    fracAt (stepForward eps s).2 i c = fracAt s i c := by
  unfold fracAt
  rw [leadPos_stepForward]

lemma missesAll_stepForward (gv : GetVoxel) (eps : ℝ) (s : SweepState)
    (h : missesAll gv s) : missesAll gv (stepForward eps s).2 := by
  intro x y z
  rw [fracAt_stepForward, fracAt_stepForward, fracAt_stepForward]
  exact h x y z

lemma checkCollision_of_missesAll (gv : GetVoxel) (s : SweepState) (a : Fin 3)
    (h : missesAll gv s) : checkCollision gv s a = false := by
  unfold checkCollision
  rw [List.any_eq_false]
  intro p _
  unfold oracleAt
  rw [h p.1 p.2.1 p.2.2]
  simp

lemma coherent_stepForward (eps : ℝ) (s : SweepState) (hc : Coherent s) :
    Coherent (stepForward eps s).2 := by
  have hD := stepForward_tDelta eps s
  rcases h : s.tNext (selectAxis (s.tNext 0) (s.tNext 1) (s.tNext 2)) with _ | tn
  · have hN : (stepForward eps s).2.tNext =
        Function.update s.tNext (selectAxis (s.tNext 0) (s.tNext 1) (s.tNext 2)) none := by
      rw [stepForward_of_none eps s h]
    refine ⟨fun i => ?_, by rw [hD]; exact hc.2⟩
    rw [hN, hD]
    by_cases hi : i = selectAxis (s.tNext 0) (s.tNext 1) (s.tNext 2)
    · subst hi
      rw [Function.update_same]
      simp only [true_iff]
      exact (hc.1 _).mp h
    · rw [Function.update_noteq hi]
      exact hc.1 i
  · have hN : (stepForward eps s).2.tNext =
        Function.update s.tNext (selectAxis (s.tNext 0) (s.tNext 1) (s.tNext 2))
          ((s.tDelta (selectAxis (s.tNext 0) (s.tNext 1) (s.tNext 2))).map (fun d => tn + d)) := by
      rw [stepForward_of_some eps s tn h]
    refine ⟨fun i => ?_, by rw [hD]; exact hc.2⟩
    rw [hN, hD]
    by_cases hi : i = selectAxis (s.tNext 0) (s.tNext 1) (s.tNext 2)
    · subst hi
      rw [Function.update_same]
      rcases htd : s.tDelta (selectAxis (s.tNext 0) (s.tNext 1) (s.tNext 2)) with _ | td
      · simp
      · simp
    · rw [Function.update_noteq hi]
      exact hc.1 i

/-- Each continuing loop step strictly decreases the remaining-crossings
measure: the crossed axis's tNext grows by its positive tDelta. -/
lemma loopMeasure_dec (eps : ℝ) (s : SweepState) (tn : ℝ) (hc : Coherent s)
    (hsel : s.tNext (selectAxis (s.tNext 0) (s.tNext 1) (s.tNext 2)) = some tn)
    (hle : tn ≤ s.max_t) :
    loopMeasure (stepForward eps s).2 < loopMeasure s := by
  obtain ⟨td, htd⟩ : ∃ td, s.tDelta (selectAxis (s.tNext 0) (s.tNext 1) (s.tNext 2)) = some td := by
    rcases htd : s.tDelta (selectAxis (s.tNext 0) (s.tNext 1) (s.tNext 2)) with _ | td
    · exact absurd ((hc.1 _).mpr htd) (by rw [hsel]; simp)
    · exact ⟨td, rfl⟩
  have htdpos := hc.2 _ td htd
  have hupd : (stepForward eps s).2.tNext =
      Function.update s.tNext (selectAxis (s.tNext 0) (s.tNext 1) (s.tNext 2)) (some (tn + td)) := by
    rw [stepForward_of_some eps s tn hsel]
    simp [htd]
  have hAFeq : ∀ i, i ≠ selectAxis (s.tNext 0) (s.tNext 1) (s.tNext 2) →
      axisFuel (stepForward eps s).2 i = axisFuel s i := by
    intro i hi
    unfold axisFuel
    rw [hupd, Function.update_noteq hi, stepForward_tDelta, stepForward_max_t]
  have hAFlt : axisFuel (stepForward eps s).2 (selectAxis (s.tNext 0) (s.tNext 1) (s.tNext 2)) <
      axisFuel s (selectAxis (s.tNext 0) (s.tNext 1) (s.tNext 2)) := by
    unfold axisFuel
    rw [hupd, Function.update_same, stepForward_tDelta, stepForward_max_t, htd, hsel]
    simp only
    rw [if_pos hle]
    by_cases h2 : tn + td ≤ s.max_t
    · rw [if_pos h2]
      have htdne : td ≠ 0 := ne_of_gt htdpos
      have h3 : (s.max_t - (tn + td)) / td = (s.max_t - tn) / td - ((1 : ℤ) : ℝ) := by
        field_simp
        ring
      have h5 : (1 : ℤ) ≤ ⌈(s.max_t - tn) / td⌉ :=
        Int.one_le_ceil_iff.mpr (div_pos (by linarith) htdpos)
      rw [h3, Int.ceil_sub_int]
      omega
    · rw [if_neg h2]
      omega
  have h3cases : ∀ j : Fin 3, j = 0 ∨ j = 1 ∨ j = 2 := by decide
  unfold loopMeasure
  rcases h3cases (selectAxis (s.tNext 0) (s.tNext 1) (s.tNext 2)) with ha | ha | ha <;>
      rw [ha] at hAFlt hAFeq
  · rw [hAFeq 1 (by decide), hAFeq 2 (by decide)]
    omega
  · rw [hAFeq 0 (by decide), hAFeq 2 (by decide)]
    omega
  · rw [hAFeq 0 (by decide), hAFeq 1 (by decide)]
    omega

end StepForwardLemmas

section LoopLemmas

lemma sweepLoop_exit (gv : GetVoxel) (cb : Callback) (eps : ℝ) (n : ℕ) (s : SweepState)
    (a : Fin 3) (s₁ : SweepState) (hp : stepForward eps s = (a, s₁))
    (hgt : ¬ s₁.t ≤ s₁.max_t) :
    sweepLoop gv cb eps (n + 1) s =
      ⟨s₁.cumulative_t + s₁.max_t, finalAdvance s₁, [], []⟩ := by
  simp only [sweepLoop, hp]
  rw [if_neg hgt]

lemma sweepLoop_skip (gv : GetVoxel) (cb : Callback) (eps : ℝ) (n : ℕ) (s : SweepState)
    (a : Fin 3) (s₁ : SweepState) (hp : stepForward eps s = (a, s₁))
    (hle : s₁.t ≤ s₁.max_t) (hcc : checkCollision gv s₁ a = false) :
    sweepLoop gv cb eps (n + 1) s =
      ⟨(sweepLoop gv cb eps n s₁).dist, (sweepLoop gv cb eps n s₁).state,
        (sweepLoop gv cb eps n s₁).events,
        queries gv s₁ a ++ (sweepLoop gv cb eps n s₁).cells⟩ := by
  simp only [sweepLoop, hp, hcc]
  rw [if_pos hle]
  simp

lemma sweepLoop_hit_stop (gv : GetVoxel) (cb : Callback) (eps : ℝ) (n : ℕ) (s : SweepState)
    (a : Fin 3) (s₁ s₂ : SweepState) (ev : CbEvent) (hp : stepForward eps s = (a, s₁))
    (hle : s₁.t ≤ s₁.max_t) (hcc : checkCollision gv s₁ a = true)
    (hh : handleCollision cb eps s₁ a = (true, s₂, ev)) :
    sweepLoop gv cb eps (n + 1) s = ⟨s₂.cumulative_t, s₂, [ev], queries gv s₁ a⟩ := by
  simp only [sweepLoop, hp, hcc, hh]
  rw [if_pos hle]
  simp

lemma sweepLoop_hit_cont (gv : GetVoxel) (cb : Callback) (eps : ℝ) (n : ℕ) (s : SweepState)
    (a : Fin 3) (s₁ s₂ : SweepState) (ev : CbEvent) (hp : stepForward eps s = (a, s₁))
    (hle : s₁.t ≤ s₁.max_t) (hcc : checkCollision gv s₁ a = true)
    (hh : handleCollision cb eps s₁ a = (false, s₂, ev)) :
    sweepLoop gv cb eps (n + 1) s =
      ⟨(sweepLoop gv cb eps n s₂).dist, (sweepLoop gv cb eps n s₂).state,
        ev :: (sweepLoop gv cb eps n s₂).events,
        queries gv s₁ a ++ (sweepLoop gv cb eps n s₂).cells⟩ := by
  simp only [sweepLoop, hp, hcc, hh]
  rw [if_pos hle]
  simp

/-- A loop run during which the oracle never reports solid exits by
exhaustion: it never fires the callback and advances the box by the whole
remaining vector, adding max_t to the distance. -/
lemma sweepLoop_noHit (gv : GetVoxel) (cb : Callback) (eps : ℝ) :
    ∀ (fuel : ℕ) (s : SweepState), Coherent s → missesAll gv s → loopMeasure s < fuel →
      ∃ s' qs, sweepLoop gv cb eps fuel s = ⟨s.cumulative_t + s.max_t, s', [], qs⟩ ∧
        s'.base = (fun i => s.base i + s.vec i) ∧ s'.max = (fun i => s.max i + s.vec i) := by
  intro fuel
  induction fuel with
  | zero => intro s _ _ h; exact absurd h (by omega)
  | succ n ih =>
    intro s hc hm hf
    rcases hp : stepForward eps s with ⟨a, s₁⟩
    have hmax_t : s₁.max_t = s.max_t := by
      have := stepForward_max_t eps s; rw [hp] at this; exact this
    have hcum : s₁.cumulative_t = s.cumulative_t := by
      have := stepForward_cum eps s; rw [hp] at this; exact this
    have hbase : s₁.base = s.base := by
      have := stepForward_base eps s; rw [hp] at this; exact this
    have hmaxf : s₁.max = s.max := by
      have := stepForward_max eps s; rw [hp] at this; exact this
    have hvec : s₁.vec = s.vec := by
      have := stepForward_vec eps s; rw [hp] at this; exact this
    by_cases hle : s₁.t ≤ s₁.max_t
    · -- the loop body runs; the oracle misses, so nothing happens
      have hm₁ : missesAll gv s₁ := by
        have := missesAll_stepForward gv eps s hm; rw [hp] at this; exact this
      have hc₁ : Coherent s₁ := by
        have := coherent_stepForward eps s hc; rw [hp] at this; exact this
      have hcc : checkCollision gv s₁ a = false := checkCollision_of_missesAll gv s₁ a hm₁
      -- the crossed tNext entry was finite and at most max_t, so the measure drops
      have hdec : loopMeasure s₁ < loopMeasure s := by
        rcases hsel : s.tNext (selectAxis (s.tNext 0) (s.tNext 1) (s.tNext 2)) with _ | tn
        · -- infinite selected tNext forces t = max_t + 1 > max_t, contradicting hle
          have hpn := stepForward_of_none eps s hsel
          rw [hp] at hpn
          have ht1 : s₁.t = s.max_t + 1 := by
            have := congrArg (fun q : Fin 3 × SweepState => q.2.t) hpn
            simpa using this
          rw [ht1, hmax_t] at hle
          linarith
        · have htle : tn ≤ s.max_t := by
            have hps := stepForward_of_some eps s tn hsel
            rw [hp] at hps
            have ht1 : s₁.t = tn := by
              have := congrArg (fun q : Fin 3 × SweepState => q.2.t) hps
              simpa using this
            rw [ht1, hmax_t] at hle
            exact hle
          have := loopMeasure_dec eps s tn hc hsel htle
          rw [hp] at this
          exact this
      obtain ⟨s', qs, hloop, hb, hx⟩ := ih s₁ hc₁ hm₁ (by omega)
      refine ⟨s', queries gv s₁ a ++ qs, ?_, ?_, ?_⟩
      · rw [sweepLoop_skip gv cb eps n s a s₁ hp hle hcc, hloop, hcum, hmax_t]
      · rw [hb, hbase, hvec]
      · rw [hx, hmaxf, hvec]
    · refine ⟨finalAdvance s₁, [], ?_, ?_, ?_⟩
      · rw [sweepLoop_exit gv cb eps n s a s₁ hp hle, hcum, hmax_t]
      · show (fun i => s₁.base i + s₁.vec i) = fun i => s.base i + s.vec i
        rw [hbase, hvec]
      · show (fun i => s₁.max i + s₁.vec i) = fun i => s.max i + s.vec i
        rw [hmaxf, hvec]

/-- If the oracle misses everywhere, the starting-voxel probe finds nothing
and leaves the state untouched. -/
lemma startingCheck_noHit (gv : GetVoxel) (cb : Callback) (eps : ℝ) (s : SweepState)
    (hm : missesAll gv s) :
    startingCheck gv cb eps s =
      ⟨false, s, [], queries gv s 0 ++ queries gv s 1 ++ queries gv s 2⟩ := by
  unfold startingCheck
  rw [checkCollision_of_missesAll gv s 0 hm, checkCollision_of_missesAll gv s 1 hm,
    checkCollision_of_missesAll gv s 2 hm]
  simp

lemma coherent_initSweep (eps : ℝ) (s : SweepState) (h : vecLen s ≠ 0) :
    Coherent (initSweep eps s) := by
  refine ⟨fun i => ?_, fun i d hd => ?_⟩
  · rw [initSweep_tNext eps s h, initSweep_tDelta eps s h]
    simp only []
    by_cases hz : s.vec i / vecLen s = 0
    · rw [if_pos hz, if_pos hz]
    · rw [if_neg hz, if_neg hz]
      simp
  · rw [initSweep_tDelta eps s h] at hd
    simp only [] at hd
    by_cases hz : s.vec i / vecLen s = 0
    · rw [if_pos hz] at hd; exact absurd hd (by simp)
    · rw [if_neg hz] at hd
      have hd2 : d = |1 / (s.vec i / vecLen s)| := (Option.some_inj.mp hd).symm
      rw [hd2]
      exact abs_pos.mpr (one_div_ne_zero hz)

/-- A full sweep_impl run through an everywhere-empty oracle: no events, and
the working corners advance by the whole vector. -/
lemma sweepImpl_noHit (gv : GetVoxel) (cb : Callback) (eps : ℝ) (csv : Bool) (fuel : ℕ)
    (vec base mx : Fin 3 → ℝ)
    (hm : vecLen (mkState vec base mx) ≠ 0)
    (hmiss : ∀ x y z dx dy dz, gv x y z dx dy dz = false)
    (hfuel : loopMeasure (initSweep eps (mkState vec base mx)) < fuel) :
    ∃ s' qs, sweepImpl gv cb eps csv fuel vec base mx =
        ⟨vecLen (mkState vec base mx), s', [], qs⟩ ∧
      s'.base = (fun i => base i + vec i) ∧ s'.max = (fun i => mx i + vec i) := by
  have hma : ∀ u : SweepState, missesAll gv u := fun u x y z => hmiss _ _ _ _ _ _
  have hC := coherent_initSweep eps (mkState vec base mx) hm
  obtain ⟨s', qs, hloop, hb, hx⟩ :=
    sweepLoop_noHit gv cb eps fuel (initSweep eps (mkState vec base mx)) hC
      (hma _) hfuel
  have hcum : (initSweep eps (mkState vec base mx)).cumulative_t = 0 :=
    initSweep_cum eps _
  have hmt : (initSweep eps (mkState vec base mx)).max_t = vecLen (mkState vec base mx) :=
    initSweep_max_t eps _
  have hib : (initSweep eps (mkState vec base mx)).base = base := initSweep_base eps _
  have hix : (initSweep eps (mkState vec base mx)).max = mx := initSweep_max eps _
  have hiv : (initSweep eps (mkState vec base mx)).vec = vec := initSweep_vec eps _
  have hbase' : s'.base = fun i => base i + vec i := by rw [hb, hib, hiv]
  have hmax' : s'.max = fun i => mx i + vec i := by rw [hx, hix, hiv]
  cases csv
  · refine ⟨s', qs, ?_, hbase', hmax'⟩
    simp only [sweepImpl]
    rw [if_neg (by rw [hmt]; exact hm)]
    simp only [Bool.false_eq_true, if_false]
    rw [hloop, hcum, hmt, zero_add]
  · refine ⟨s', (queries gv (initSweep eps (mkState vec base mx)) 0 ++
        queries gv (initSweep eps (mkState vec base mx)) 1 ++
        queries gv (initSweep eps (mkState vec base mx)) 2) ++ qs, ?_, hbase', hmax'⟩
    simp only [sweepImpl]
    rw [if_neg (by rw [hmt]; exact hm)]
    rw [startingCheck_noHit gv cb eps _ (hma _)]
    simp only []
    rw [hloop, hcum, hmt]
    simp

end LoopLemmas

section WrapperLemmas

/-- The public wrapper's observable outcome, given the core run's outcome,
when translation is enabled. -/
lemma sweep_eq_of_impl (gv : GetVoxel) (box : Box) (dir : Fin 3 → ℝ) (cb : Callback)
    (eps : ℝ) (csv : Bool) (fuel : ℕ) (D : ℝ) (S : SweepState) (E : List CbEvent)
    (Q : List (ℤ × ℤ × ℤ))
    (h : sweepImpl gv cb eps csv fuel dir box.base box.max = ⟨D, S, E, Q⟩) :
    sweep gv box dir cb false eps csv fuel =
      ⟨D,
        ⟨fun i => box.base i +
            (if 0 < dir i then S.max i - box.max i else S.base i - box.base i),
          fun i => box.max i +
            (if 0 < dir i then S.max i - box.max i else S.base i - box.base i)⟩,
        [fun i => if 0 < dir i then S.max i - box.max i else S.base i - box.base i],
        E, Q, dir⟩ := by
  simp [sweep, h]

end WrapperLemmas

section FaceLemmas

lemma vecLen_pos (s : SweepState) (h : ∃ j, s.vec j ≠ 0) : 0 < vecLen s := by
  unfold vecLen
  apply Real.sqrt_pos.mpr
  obtain ⟨j, hj⟩ := h
  have h0 := mul_self_nonneg (s.vec 0)
  have h1 := mul_self_nonneg (s.vec 1)
  have h2 := mul_self_nonneg (s.vec 2)
  fin_cases j
  · have := mul_self_pos.mpr (show s.vec 0 ≠ 0 from hj)
    nlinarith
  · have := mul_self_pos.mpr (show s.vec 1 ≠ 0 from hj)
    nlinarith
  · have := mul_self_pos.mpr (show s.vec 2 ≠ 0 from hj)
    nlinarith

lemma axisRange_length (a b st : ℤ) :
    (axisRange a b st).length = ((b - a) * st).toNat := by
  simp [axisRange]

lemma product_length {α β : Type} (l₁ : List α) (l₂ : List β) :
    (List.product l₁ l₂).length = l₁.length * l₂.length := List.length_product l₁ l₂

lemma trail_le_lead (eps b m : ℝ) (h : b + 2 * eps ≤ m) :
    trailEdgeToInt b 1 eps ≤ leadEdgeToInt m 1 eps := by
  unfold trailEdgeToInt leadEdgeToInt
  apply Int.floor_mono
  push_cast
  linarith

lemma lead_le_trail (eps b m : ℝ) (h : b + 2 * eps ≤ m) :
    leadEdgeToInt b (-1) eps ≤ trailEdgeToInt m (-1) eps := by
  unfold leadEdgeToInt trailEdgeToInt
  apply Int.floor_mono
  push_cast
  linarith

/-- With base + 2ε ≤ max on every axis, every range of the starting leading
face is nonempty, so faceCoords has a member. -/
lemma faceCoords_init_pos (eps : ℝ) (vec base mx : Fin 3 → ℝ) (a : Fin 3)
    (hm : vecLen (mkState vec base mx) ≠ 0)
    (hbox : ∀ i, base i + 2 * eps ≤ mx i) :
    0 < (faceCoords (initSweep eps (mkState vec base mx)) a).length := by
  have hstep := initSweep_step eps (mkState vec base mx) hm
  have hldi := initSweep_ldi eps (mkState vec base mx) hm
  have htri := initSweep_tri eps (mkState vec base mx) hm
  simp only [mkState_vec, mkState_base, mkState_max] at hstep hldi htri
  have hcnt : ∀ i : Fin 3,
      1 ≤ ((initSweep eps (mkState vec base mx)).ldi i +
          (initSweep eps (mkState vec base mx)).step i -
          (initSweep eps (mkState vec base mx)).tri i) *
        (initSweep eps (mkState vec base mx)).step i := by
    intro i
    rw [hstep, hldi, htri]
    simp only []
    by_cases hdi : 0 ≤ vec i
    · rw [if_pos hdi, if_pos hdi, if_pos hdi]
      have := trail_le_lead eps (base i) (mx i) (hbox i)
      nlinarith
    · rw [if_neg hdi, if_neg hdi, if_neg hdi]
      have := lead_le_trail eps (base i) (mx i) (hbox i)
      nlinarith
  have hcnt0 : ∀ i : Fin 3,
      1 ≤ ((initSweep eps (mkState vec base mx)).ldi i +
          (initSweep eps (mkState vec base mx)).step i -
          (initSweep eps (mkState vec base mx)).ldi i) *
        (initSweep eps (mkState vec base mx)).step i := by
    intro i
    rw [hstep]
    simp only []
    by_cases hdi : 0 ≤ vec i
    · rw [if_pos hdi]; ring_nf; norm_num
    · rw [if_neg hdi]; ring_nf; norm_num
  unfold faceCoords
  rw [product_length, product_length, axisRange_length, axisRange_length,
    axisRange_length]
  have c0 : 0 < (((initSweep eps (mkState vec base mx)).ldi 0 +
      (initSweep eps (mkState vec base mx)).step 0 -
      (if a = 0 then (initSweep eps (mkState vec base mx)).ldi 0
        else (initSweep eps (mkState vec base mx)).tri 0)) *
      (initSweep eps (mkState vec base mx)).step 0).toNat := by
    by_cases ha : a = 0
    · rw [if_pos ha]; have := hcnt0 0; omega
    · rw [if_neg ha]; have := hcnt 0; omega
  have c1 : 0 < (((initSweep eps (mkState vec base mx)).ldi 1 +
      (initSweep eps (mkState vec base mx)).step 1 -
      (if a = 1 then (initSweep eps (mkState vec base mx)).ldi 1
        else (initSweep eps (mkState vec base mx)).tri 1)) *
      (initSweep eps (mkState vec base mx)).step 1).toNat := by
    by_cases ha : a = 1
    · rw [if_pos ha]; have := hcnt0 1; omega
    · rw [if_neg ha]; have := hcnt 1; omega
  have c2 : 0 < (((initSweep eps (mkState vec base mx)).ldi 2 +
      (initSweep eps (mkState vec base mx)).step 2 -
      (if a = 2 then (initSweep eps (mkState vec base mx)).ldi 2
        else (initSweep eps (mkState vec base mx)).tri 2)) *
      (initSweep eps (mkState vec base mx)).step 2).toNat := by
    by_cases ha : a = 2
    · rw [if_pos ha]; have := hcnt0 2; omega
    · rw [if_neg ha]; have := hcnt 2; omega
  positivity

lemma startAxis_events (cb : Callback) (eps : ℝ) (s : SweepState) (a : Fin 3)
    (qs : List (ℤ × ℤ × ℤ)) :
    (startAxis cb eps s a qs).events = [⟨0, a, s.step a, s.vec⟩] := by
  simp only [startAxis]
  split_ifs <;> rfl

lemma startAxis_cells (cb : Callback) (eps : ℝ) (s : SweepState) (a : Fin 3)
    (qs : List (ℤ × ℤ × ℤ)) :
    (startAxis cb eps s a qs).cells = qs := by
  simp only [startAxis]
  split_ifs <;> rfl

lemma startAxis_stop (cb : Callback) (eps : ℝ) (s : SweepState) (a : Fin 3)
    (qs : List (ℤ × ℤ × ℤ)) (hcb : (cb 0 a (s.step a) s.vec).1 = true) :
    startAxis cb eps s a qs = ⟨true, s, [⟨0, a, s.step a, s.vec⟩], qs⟩ := by
  simp only [startAxis]
  rw [if_pos hcb]

end FaceLemmas

/-- Claim C3: sweeping any box with base ≤ max along any direction through an
oracle that always reports empty never invokes the callback, returns the
Euclidean norm of the direction, and (noTranslate left false) leaves the
caller's box at exactly start + direction on both corners, once the loop is
given fuel beyond the remaining-crossings measure of the initial state. -/
theorem sweep_empty_oracle (gv : GetVoxel) (box : Box) (dir : Fin 3 → ℝ) (cb : Callback)
    (eps : ℝ) (csv : Bool)
    (hbox : ∀ i, box.base i ≤ box.max i)
    (hgv : ∀ x y z dx dy dz, gv x y z dx dy dz = false) :
    ∃ N, ∀ fuel, N < fuel →
      (sweep gv box dir cb false eps csv fuel).dist =
        Real.sqrt (dir 0 * dir 0 + dir 1 * dir 1 + dir 2 * dir 2) ∧
      (sweep gv box dir cb false eps csv fuel).cbEvents = [] ∧
      (∀ i, (sweep gv box dir cb false eps csv fuel).box.base i = box.base i + dir i) ∧
      (∀ i, (sweep gv box dir cb false eps csv fuel).box.max i = box.max i + dir i) := by
  by_cases hm : vecLen (mkState dir box.base box.max) = 0
  · -- zero-length direction: the sweep returns at once and translates by 0
    have hs : Real.sqrt (dir 0 * dir 0 + dir 1 * dir 1 + dir 2 * dir 2) = 0 := by
      unfold vecLen at hm
      simpa using hm
    have hd0 : ∀ i, dir i = 0 := by
      have h3 := Real.sqrt_eq_zero'.mp hs
      intro i
      have hi : dir i * dir i = 0 := by
        fin_cases i
        · show dir 0 * dir 0 = 0
          nlinarith [mul_self_nonneg (dir 0), mul_self_nonneg (dir 1),
            mul_self_nonneg (dir 2)]
        · show dir 1 * dir 1 = 0
          nlinarith [mul_self_nonneg (dir 0), mul_self_nonneg (dir 1),
            mul_self_nonneg (dir 2)]
        · show dir 2 * dir 2 = 0
          nlinarith [mul_self_nonneg (dir 0), mul_self_nonneg (dir 1),
            mul_self_nonneg (dir 2)]
      exact mul_self_eq_zero.mp hi
    refine ⟨0, fun fuel _ => ?_⟩
    have himpl : sweepImpl gv cb eps csv fuel dir box.base box.max =
        ⟨0, initSweep eps (mkState dir box.base box.max), [], []⟩ := by
      simp only [sweepImpl]
      rw [if_pos ((initSweep_max_t eps _).trans hm)]
    rw [sweep_eq_of_impl gv box dir cb eps csv fuel _ _ _ _ himpl]
    refine ⟨hs.symm, rfl, fun i => ?_, fun i => ?_⟩
    · simp only []
      rw [hd0 i, if_neg (lt_irrefl 0), initSweep_base, mkState_base]
      simp
    · simp only []
      rw [hd0 i, if_neg (lt_irrefl 0), initSweep_base, mkState_base]
      simp
  · refine ⟨loopMeasure (initSweep eps (mkState dir box.base box.max)), fun fuel hfuel => ?_⟩
    obtain ⟨s', qs, himpl, hb, hx⟩ :=
      sweepImpl_noHit gv cb eps csv fuel dir box.base box.max hm hgv hfuel
    rw [sweep_eq_of_impl gv box dir cb eps csv fuel _ _ _ _ himpl]
    have hbi : ∀ i, s'.base i = box.base i + dir i := fun i => by
      have := congrFun hb i; simpa using this
    have hxi : ∀ i, s'.max i = box.max i + dir i := fun i => by
      have := congrFun hx i; simpa using this
    refine ⟨rfl, rfl, fun i => ?_, fun i => ?_⟩
    · simp only []
      by_cases hdi : 0 < dir i
      · rw [if_pos hdi, hxi i]; ring
      · rw [if_neg hdi, hbi i]; ring
    · simp only []
      by_cases hdi : 0 < dir i
      · rw [if_pos hdi, hxi i]; ring
      · rw [if_neg hdi, hbi i]; ring

/-- Witness for C3: a concrete unit box with direction (1, 1, 1) against the
always-empty oracle. -/
theorem sweep_empty_oracle_wit :
    (∀ i : Fin 3, (Box.mk (fun _ => 0) (fun _ => 1)).base i ≤
        (Box.mk (fun _ => 0) (fun _ => 1)).max i) ∧
      ∃ N, ∀ fuel, N < fuel →
        (sweep (fun _ _ _ _ _ _ => false) ⟨fun _ => 0, fun _ => 1⟩ (fun _ => 1)
            (fun _ _ _ l => (true, l)) false (1/4) false fuel).dist =
          Real.sqrt ((1 : ℝ) * 1 + 1 * 1 + 1 * 1) ∧
        (sweep (fun _ _ _ _ _ _ => false) ⟨fun _ => 0, fun _ => 1⟩ (fun _ => 1)
            (fun _ _ _ l => (true, l)) false (1/4) false fuel).cbEvents = [] ∧
        (∀ i, (sweep (fun _ _ _ _ _ _ => false) ⟨fun _ => 0, fun _ => 1⟩ (fun _ => 1)
            (fun _ _ _ l => (true, l)) false (1/4) false fuel).box.base i = 0 + 1) ∧
        (∀ i, (sweep (fun _ _ _ _ _ _ => false) ⟨fun _ => 0, fun _ => 1⟩ (fun _ => 1)
            (fun _ _ _ l => (true, l)) false (1/4) false fuel).box.max i = 1 + 1) :=
  ⟨fun _ => by norm_num,
    sweep_empty_oracle (fun _ _ _ _ _ _ => false) ⟨fun _ => 0, fun _ => 1⟩ (fun _ => 1)
      (fun _ _ _ l => (true, l)) (1/4) false (fun _ => by norm_num)
      (fun _ _ _ _ _ _ => rfl)⟩

/-- Claim C4: with checkStartingVoxel on, a non-zero direction and an
always-solid oracle, the starting probe fires the callback exactly once, at
distance 0 on axis 0 (the lowest-numbered axis), before any DDA step; only
axis 0 is probed (the recorded queries all come from the axis-0 probe, axes
1 and 2 are never checked); and when the callback answers stop, the whole
sweep returns 0 with the caller's box unchanged. -/
theorem sweep_startingVoxel_probe (gv : GetVoxel) (box : Box) (dir : Fin 3 → ℝ)
    (cb : Callback) (eps : ℝ) (fuel : ℕ)
    (hbox : ∀ i, box.base i + 2 * eps ≤ box.max i)
    (hdir : ∃ j, dir j ≠ 0)
    (hgv : ∀ x y z dx dy dz, gv x y z dx dy dz = true) :
    (startingCheck gv cb eps (initSweep eps (mkState dir box.base box.max))).events =
      [⟨0, 0, (initSweep eps (mkState dir box.base box.max)).step 0, dir⟩] ∧
    (startingCheck gv cb eps (initSweep eps (mkState dir box.base box.max))).cells =
      queries gv (initSweep eps (mkState dir box.base box.max)) 0 ∧
    ((∀ c a d l, (cb c a d l).1 = true) →
      (sweep gv box dir cb false eps true fuel).dist = 0 ∧
      (sweep gv box dir cb false eps true fuel).cbEvents =
        [⟨0, 0, (initSweep eps (mkState dir box.base box.max)).step 0, dir⟩] ∧
      (∀ i, (sweep gv box dir cb false eps true fuel).box.base i = box.base i) ∧
      (∀ i, (sweep gv box dir cb false eps true fuel).box.max i = box.max i)) := by
  have hm : vecLen (mkState dir box.base box.max) ≠ 0 :=
    ne_of_gt (vecLen_pos _ (by simpa using hdir))
  have hv : (initSweep eps (mkState dir box.base box.max)).vec = dir :=
    (initSweep_vec eps _).trans (mkState_vec _ _ _)
  have hcc0 : checkCollision gv (initSweep eps (mkState dir box.base box.max)) 0 = true := by
    unfold checkCollision
    rw [List.any_eq_true]
    obtain ⟨p, hp⟩ := List.exists_mem_of_length_pos
      (faceCoords_init_pos eps dir box.base box.max 0 hm hbox)
    exact ⟨p, hp, hgv _ _ _ _ _ _⟩
  have hstart : startingCheck gv cb eps (initSweep eps (mkState dir box.base box.max)) =
      startAxis cb eps (initSweep eps (mkState dir box.base box.max)) 0
        (queries gv (initSweep eps (mkState dir box.base box.max)) 0) := by
    unfold startingCheck
    rw [hcc0]
    simp
  refine ⟨?_, ?_, ?_⟩
  · rw [hstart, startAxis_events, hv]
  · rw [hstart, startAxis_cells]
  · intro hcb
    have hstop : startAxis cb eps (initSweep eps (mkState dir box.base box.max)) 0
        (queries gv (initSweep eps (mkState dir box.base box.max)) 0) =
        ⟨true, initSweep eps (mkState dir box.base box.max),
          [⟨0, 0, (initSweep eps (mkState dir box.base box.max)).step 0,
            (initSweep eps (mkState dir box.base box.max)).vec⟩],
          queries gv (initSweep eps (mkState dir box.base box.max)) 0⟩ :=
      startAxis_stop cb eps _ 0 _ (hcb _ _ _ _)
    have himpl : sweepImpl gv cb eps true fuel dir box.base box.max =
        ⟨0, initSweep eps (mkState dir box.base box.max),
          [⟨0, 0, (initSweep eps (mkState dir box.base box.max)).step 0,
            (initSweep eps (mkState dir box.base box.max)).vec⟩],
          queries gv (initSweep eps (mkState dir box.base box.max)) 0⟩ := by
      simp only [sweepImpl]
      rw [if_neg (by rw [initSweep_max_t]; exact hm)]
      rw [hstart, hstop]
      simp
    rw [sweep_eq_of_impl gv box dir cb eps true fuel _ _ _ _ himpl]
    have hsb : (initSweep eps (mkState dir box.base box.max)).base = box.base :=
      (initSweep_base eps _).trans (mkState_base _ _ _)
    have hsx : (initSweep eps (mkState dir box.base box.max)).max = box.max :=
      (initSweep_max eps _).trans (mkState_max _ _ _)
    refine ⟨rfl, by rw [hv], fun i => ?_, fun i => ?_⟩
    · simp only []
      by_cases hdi : 0 < dir i
      · rw [if_pos hdi, hsx]; ring
      · rw [if_neg hdi, hsb]; ring
    · simp only []
      by_cases hdi : 0 < dir i
      · rw [if_pos hdi, hsx]; ring
      · rw [if_neg hdi, hsb]; ring

/-- The callback that stops at the first collision, leaving its vector alone. -/
def stopCb : Callback := fun _ _ _ l => (true, l)

/-- The oracle that reports solid everywhere. -/
def solidGv : GetVoxel := fun _ _ _ _ _ _ => true

/-- A unit direction along axis 0. -/
def dirX : Fin 3 → ℝ := fun i => if i = 0 then 1 else 0

/-- Witness for C4: unit box at the origin, direction (1, 0, 0), the
always-solid oracle and the stop-at-once callback. -/
theorem sweep_startingVoxel_probe_wit :
    (∀ i : Fin 3, (Box.mk (fun _ => 0) (fun _ => 1)).base i + 2 * (1/4) ≤
        (Box.mk (fun _ => 0) (fun _ => 1)).max i) ∧
      (∃ j, dirX j ≠ 0) ∧
      ((startingCheck solidGv stopCb (1/4)
          (initSweep (1/4) (mkState dirX (fun _ => 0) (fun _ => 1)))).events =
        [⟨0, 0, (initSweep (1/4) (mkState dirX (fun _ => 0) (fun _ => 1))).step 0, dirX⟩] ∧
       (startingCheck solidGv stopCb (1/4)
          (initSweep (1/4) (mkState dirX (fun _ => 0) (fun _ => 1)))).cells =
        queries solidGv (initSweep (1/4) (mkState dirX (fun _ => 0) (fun _ => 1))) 0 ∧
       ((∀ c a d l, (stopCb c a d l).1 = true) →
        (sweep solidGv ⟨fun _ => 0, fun _ => 1⟩ dirX stopCb false (1/4) true 7).dist = 0 ∧
        (sweep solidGv ⟨fun _ => 0, fun _ => 1⟩ dirX stopCb false (1/4) true 7).cbEvents =
          [⟨0, 0, (initSweep (1/4) (mkState dirX (fun _ => 0) (fun _ => 1))).step 0, dirX⟩] ∧
        (∀ i, (sweep solidGv ⟨fun _ => 0, fun _ => 1⟩ dirX stopCb
            false (1/4) true 7).box.base i = (Box.mk (fun _ => 0) (fun _ => 1)).base i) ∧
        (∀ i, (sweep solidGv ⟨fun _ => 0, fun _ => 1⟩ dirX stopCb
            false (1/4) true 7).box.max i = (Box.mk (fun _ => 0) (fun _ => 1)).max i))) :=
  ⟨fun _ => by norm_num, ⟨0, by norm_num [dirX]⟩,
    sweep_startingVoxel_probe solidGv ⟨fun _ => 0, fun _ => 1⟩ dirX stopCb (1/4) 7
      (fun _ => by norm_num) ⟨0, by norm_num [dirX]⟩ (fun _ _ _ _ _ _ => rfl)⟩

section ZeroAxis

/-- Invariant carried through a whole sweep call for an axis i₀ whose
direction component is zero: its corner coordinates never change, its tNext
stays infinite while some other axis stays finite, and its leading-edge cell
index keeps the value the first initSweep computed. -/
structure ZInv (i₀ : Fin 3) (B M eps : ℝ) (s : SweepState) : Prop where
  vz : s.vec i₀ = 0
  bz : s.base i₀ = B
  mz : s.max i₀ = M
  nz : s.tNext i₀ = none
  ex : ∃ j, s.tNext j ≠ none
  lz : s.ldi i₀ = leadEdgeToInt M 1 eps

lemma sel_tNext_ne_none (s : SweepState) (hj : ∃ j, s.tNext j ≠ none) :
    s.tNext (selectAxis (s.tNext 0) (s.tNext 1) (s.tNext 2)) ≠ none := by
  obtain ⟨j, hjn⟩ := hj
  have hor : s.tNext 0 ≠ none ∨ s.tNext 1 ≠ none ∨ s.tNext 2 ≠ none := by
    fin_cases j
    · exact Or.inl hjn
    · exact Or.inr (Or.inl hjn)
    · exact Or.inr (Or.inr hjn)
  have h := selectAxis_isSome (s.tNext 0) (s.tNext 1) (s.tNext 2) hor
  rw [nthOpt_eq s.tNext] at h
  exact h

lemma select_ne (s : SweepState) (i₀ : Fin 3) (hni : s.tNext i₀ = none)
    (hj : ∃ j, s.tNext j ≠ none) :
    selectAxis (s.tNext 0) (s.tNext 1) (s.tNext 2) ≠ i₀ := by
  intro he
  exact sel_tNext_ne_none s hj (he ▸ hni)

lemma exists_ne_of_vecLen (s : SweepState) (hm : vecLen s ≠ 0) :
    ∃ j : Fin 3, s.vec j ≠ 0 := by
  by_contra h
  push_neg at h
  apply hm
  unfold vecLen
  rw [h 0, h 1, h 2]
  simp

/-- initSweep establishes the zero-axis invariant. -/
lemma zinv_init (eps : ℝ) (s : SweepState) (i₀ : Fin 3) (hz : s.vec i₀ = 0)
    (hm : vecLen s ≠ 0) :
    ZInv i₀ (s.base i₀) (s.max i₀) eps (initSweep eps s) := by
  have hvdiv : s.vec i₀ / vecLen s = 0 := by rw [hz, zero_div]
  have hge : 0 ≤ s.vec i₀ := le_of_eq hz.symm
  refine ⟨?_, ?_, ?_, ?_, ?_, ?_⟩
  · rw [initSweep_vec]; exact hz
  · rw [initSweep_base]
  · rw [initSweep_max]
  · rw [initSweep_tNext eps s hm]
    simp only []
    rw [if_pos hvdiv]
  · obtain ⟨j, hj⟩ := exists_ne_of_vecLen s hm
    refine ⟨j, ?_⟩
    rw [initSweep_tNext eps s hm]
    simp only []
    rw [if_neg (div_ne_zero hj hm)]
    simp
  · rw [initSweep_ldi eps s hm]
    simp only []
    rw [if_pos hge]

/-- stepForward preserves the zero-axis invariant. -/
lemma zinv_stepForward (eps : ℝ) (s : SweepState) (i₀ : Fin 3) (B M : ℝ)
    (hc : Coherent s) (hz : ZInv i₀ B M eps s) :
    ZInv i₀ B M eps (stepForward eps s).2 := by
  have hne := select_ne s i₀ hz.nz hz.ex
  rcases hsel : s.tNext (selectAxis (s.tNext 0) (s.tNext 1) (s.tNext 2)) with _ | tn
  · exact absurd hsel (sel_tNext_ne_none s hz.ex)
  · obtain ⟨td, htd⟩ : ∃ td,
        s.tDelta (selectAxis (s.tNext 0) (s.tNext 1) (s.tNext 2)) = some td := by
      rcases htd : s.tDelta (selectAxis (s.tNext 0) (s.tNext 1) (s.tNext 2)) with _ | td
      · exact absurd ((hc.1 _).mpr htd) (by rw [hsel]; simp)
      · exact ⟨td, rfl⟩
    rw [stepForward_of_some eps s tn hsel]
    refine ⟨hz.vz, hz.bz, hz.mz, ?_, ?_, ?_⟩
    · show Function.update s.tNext _ _ i₀ = none
      rw [Function.update_noteq (Ne.symm hne)]
      exact hz.nz
    · refine ⟨selectAxis (s.tNext 0) (s.tNext 1) (s.tNext 2), ?_⟩
      show Function.update s.tNext _ _ _ ≠ none
      rw [Function.update_same, htd]
      simp
    · show Function.update s.ldi _ _ i₀ = leadEdgeToInt M 1 eps
      rw [Function.update_noteq (Ne.symm hne)]
      exact hz.lz

/-- handleCollision on an axis other than i₀, with a callback that never
touches component i₀ of its vector argument, keeps the i₀ leading-edge cell;
and when it continues, the re-initialized state is coherent and satisfies
the invariant again. -/
lemma handleCollision_zinv (cb : Callback) (eps : ℝ) (s₁ : SweepState) (a : Fin 3)
    (i₀ : Fin 3) (B M : ℝ) (hne : a ≠ i₀)
    (hcb : ∀ c a' d l, ((cb c a' d l).2) i₀ = l i₀)
    (hz : ZInv i₀ B M eps s₁) :
    (handleCollision cb eps s₁ a).2.1.ldi i₀ = leadEdgeToInt M 1 eps ∧
      ((handleCollision cb eps s₁ a).1 = false →
        Coherent (handleCollision cb eps s₁ a).2.1 ∧
          ZInv i₀ B M eps (handleCollision cb eps s₁ a).2.1) := by
  rcases hr : cb (s₁.cumulative_t + s₁.t) a (s₁.step a)
      (fun i => s₁.vec i - s₁.vec i * (s₁.t / s₁.max_t)) with ⟨res, left'⟩
  have hl0 : left' i₀ = 0 := by
    have := hcb (s₁.cumulative_t + s₁.t) a (s₁.step a)
      (fun i => s₁.vec i - s₁.vec i * (s₁.t / s₁.max_t))
    rw [hr] at this
    simp only [] at this
    rw [this, hz.vz]
    ring
  simp only [handleCollision, hr]
  by_cases hres : res = true
  · rw [hres]
    simp only [if_true]
    exact ⟨hz.lz, by simp⟩
  · have hres' : res = false := by
      cases res
      · rfl
      · exact absurd rfl hres
    rw [hres']
    simp only [Bool.false_eq_true, if_false]
    -- the state handed to initSweep: vec := left', snapped corners on axis a
    have hub : (if 0 < s₁.step a
          then (fun i => s₁.base i + s₁.vec i * (s₁.t / s₁.max_t))
          else Function.update (fun i => s₁.base i + s₁.vec i * (s₁.t / s₁.max_t)) a
            (round ((fun i => s₁.base i + s₁.vec i * (s₁.t / s₁.max_t)) a))) i₀ = B := by
      split_ifs
      · show s₁.base i₀ + s₁.vec i₀ * (s₁.t / s₁.max_t) = B
        rw [hz.vz, hz.bz]; ring
      · rw [Function.update_noteq (Ne.symm hne)]
        show s₁.base i₀ + s₁.vec i₀ * (s₁.t / s₁.max_t) = B
        rw [hz.vz, hz.bz]; ring
    have hum : (if 0 < s₁.step a
          then Function.update (fun i => s₁.max i + s₁.vec i * (s₁.t / s₁.max_t)) a
            (round ((fun i => s₁.max i + s₁.vec i * (s₁.t / s₁.max_t)) a))
          else (fun i => s₁.max i + s₁.vec i * (s₁.t / s₁.max_t))) i₀ = M := by
      split_ifs
      · rw [Function.update_noteq (Ne.symm hne)]
        show s₁.max i₀ + s₁.vec i₀ * (s₁.t / s₁.max_t) = M
        rw [hz.vz, hz.mz]; ring
      · show s₁.max i₀ + s₁.vec i₀ * (s₁.t / s₁.max_t) = M
        rw [hz.vz, hz.mz]; ring
    set upd : SweepState :=
      { s₁ with
        cumulative_t := s₁.cumulative_t + s₁.t
        base := if 0 < s₁.step a
          then (fun i => s₁.base i + s₁.vec i * (s₁.t / s₁.max_t))
          else Function.update (fun i => s₁.base i + s₁.vec i * (s₁.t / s₁.max_t)) a
            (round ((fun i => s₁.base i + s₁.vec i * (s₁.t / s₁.max_t)) a))
        max := if 0 < s₁.step a
          then Function.update (fun i => s₁.max i + s₁.vec i * (s₁.t / s₁.max_t)) a
            (round ((fun i => s₁.max i + s₁.vec i * (s₁.t / s₁.max_t)) a))
          else (fun i => s₁.max i + s₁.vec i * (s₁.t / s₁.max_t))
        vec := left' } with hupd
    by_cases hvl : vecLen upd = 0
    · have hinit := initSweep_of_len_zero eps upd hvl
      have hmt0 : (initSweep eps upd).max_t = 0 := (initSweep_max_t eps upd).trans hvl
      constructor
      · show (initSweep eps upd).ldi i₀ = leadEdgeToInt M 1 eps
        rw [hinit]
        exact hz.lz
      · intro hfalse
        exact absurd hfalse (by rw [if_pos hmt0]; simp)
    · have hzu := zinv_init eps upd i₀ hl0 hvl
      rw [show upd.base i₀ = B from hub, show upd.max i₀ = M from hum] at hzu
      constructor
      · exact hzu.lz
      · intro _
        exact ⟨coherent_initSweep eps upd hvl, hzu⟩

/-- The starting-voxel probe body preserves the zero-axis invariant. -/
lemma startAxis_zinv (cb : Callback) (eps : ℝ) (s : SweepState) (aP : Fin 3)
    (qs : List (ℤ × ℤ × ℤ)) (i₀ : Fin 3) (B M : ℝ)
    (hcb : ∀ c a' d l, ((cb c a' d l).2) i₀ = l i₀)
    (hc : Coherent s) (hz : ZInv i₀ B M eps s) :
    (startAxis cb eps s aP qs).state.ldi i₀ = leadEdgeToInt M 1 eps ∧
      ((startAxis cb eps s aP qs).stop = false →
        Coherent (startAxis cb eps s aP qs).state ∧
          ZInv i₀ B M eps (startAxis cb eps s aP qs).state) := by
  rcases hr : cb 0 aP (s.step aP) s.vec with ⟨res, left'⟩
  have hl0 : left' i₀ = s.vec i₀ := by
    have h := hcb 0 aP (s.step aP) s.vec
    rw [hr] at h
    exact h
  simp only [startAxis, hr]
  by_cases hres : res = true
  · rw [hres]
    simp only [if_true]
    exact ⟨hz.lz, by simp⟩
  · rw [show res = false by cases res; rfl; exact absurd rfl hres]
    simp only [Bool.false_eq_true, if_false]
    by_cases hmod : ∀ i, left' i = s.vec i
    · rw [if_pos hmod]
      exact ⟨hz.lz, fun _ => ⟨hc, hz⟩⟩
    · rw [if_neg hmod]
      have hv0 : ({ s with vec := left' } : SweepState).vec i₀ = 0 := by
        show left' i₀ = 0
        rw [hl0, hz.vz]
      by_cases hvl : vecLen { s with vec := left' } = 0
      · have hinit := initSweep_of_len_zero eps _ hvl
        have hmt0 : (initSweep eps { s with vec := left' }).max_t = 0 :=
          (initSweep_max_t eps _).trans hvl
        constructor
        · show (initSweep eps { s with vec := left' }).ldi i₀ = leadEdgeToInt M 1 eps
          rw [hinit]
          exact hz.lz
        · intro hfalse
          rw [if_pos hmt0] at hfalse
          exact absurd hfalse (by simp)
      · have hzu : ZInv i₀ B M eps (initSweep eps { s with vec := left' }) := by
          rw [← hz.bz, ← hz.mz]
          exact zinv_init eps _ i₀ hv0 hvl
        refine ⟨hzu.lz, fun _ => ⟨coherent_initSweep eps _ hvl, hzu⟩⟩

/-- Through any number of loop iterations, with an i₀-preserving callback,
the i₀ leading-edge cell index never changes. -/
lemma sweepLoop_ldi (gv : GetVoxel) (cb : Callback) (eps : ℝ) (i₀ : Fin 3) (B M : ℝ)
    (hcb : ∀ c a' d l, ((cb c a' d l).2) i₀ = l i₀) :
    ∀ (fuel : ℕ) (s : SweepState), Coherent s → ZInv i₀ B M eps s →
      (sweepLoop gv cb eps fuel s).state.ldi i₀ = leadEdgeToInt M 1 eps := by
  intro fuel
  induction fuel with
  | zero => intro s _ hz; exact hz.lz
  | succ n ih =>
    intro s hc hz
    rcases hp : stepForward eps s with ⟨a, s₁⟩
    have ha : a = selectAxis (s.tNext 0) (s.tNext 1) (s.tNext 2) := by
      have h := stepForward_fst eps s
      rw [hp] at h
      exact h
    have hane : a ≠ i₀ := by
      rw [ha]
      exact select_ne s i₀ hz.nz hz.ex
    have hc₁ : Coherent s₁ := by
      have h := coherent_stepForward eps s hc
      rw [hp] at h
      exact h
    have hz₁ : ZInv i₀ B M eps s₁ := by
      have h := zinv_stepForward eps s i₀ B M hc hz
      rw [hp] at h
      exact h
    by_cases hle : s₁.t ≤ s₁.max_t
    · by_cases hcc : checkCollision gv s₁ a = true
      · rcases hh : handleCollision cb eps s₁ a with ⟨flag, s₂, ev⟩
        have hhz := handleCollision_zinv cb eps s₁ a i₀ B M hane hcb hz₁
        rw [hh] at hhz
        cases flag
        · rw [sweepLoop_hit_cont gv cb eps n s a s₁ s₂ ev hp hle hcc hh]
          exact ih s₂ (hhz.2 rfl).1 (hhz.2 rfl).2
        · rw [sweepLoop_hit_stop gv cb eps n s a s₁ s₂ ev hp hle hcc hh]
          exact hhz.1
      · have hccf : checkCollision gv s₁ a = false := by
          cases h2 : checkCollision gv s₁ a
          · rfl
          · exact absurd h2 hcc
        rw [sweepLoop_skip gv cb eps n s a s₁ hp hle hccf]
        exact ih s₁ hc₁ hz₁
    · rw [sweepLoop_exit gv cb eps n s a s₁ hp hle]
      exact hz₁.lz

/-- The whole starting-voxel probe preserves the zero-axis invariant. -/
lemma startingCheck_zinv (gv : GetVoxel) (cb : Callback) (eps : ℝ) (s : SweepState)
    (i₀ : Fin 3) (B M : ℝ) (hcb : ∀ c a' d l, ((cb c a' d l).2) i₀ = l i₀)
    (hc : Coherent s) (hz : ZInv i₀ B M eps s) :
    (startingCheck gv cb eps s).state.ldi i₀ = leadEdgeToInt M 1 eps ∧
      ((startingCheck gv cb eps s).stop = false →
        Coherent (startingCheck gv cb eps s).state ∧
          ZInv i₀ B M eps (startingCheck gv cb eps s).state) := by
  unfold startingCheck
  split_ifs with h0 h1 h2
  · exact startAxis_zinv cb eps s 0 _ i₀ B M hcb hc hz
  · exact startAxis_zinv cb eps s 1 _ i₀ B M hcb hc hz
  · exact startAxis_zinv cb eps s 2 _ i₀ B M hcb hc hz
  · exact ⟨hz.lz, fun _ => ⟨hc, hz⟩⟩

/-- Claim C9: for an axis whose direction component is exactly 0 while the
vector has positive length, initSweep makes that axis's tDelta and tNext
infinite (modelled as none) rather than failing on 1/0; the advancer never
selects an axis with infinite tNext while another axis has a finite one; and
the axis's leading-edge cell index ldi[i₀] holds the value the first
initSweep computed through the whole call (for callbacks that leave the
i₀-component of their vector argument alone, so the component stays 0). -/
theorem sweep_zero_axis (gv : GetVoxel) (box : Box) (dir : Fin 3 → ℝ) (cb : Callback)
    (eps : ℝ) (csv : Bool) (fuel : ℕ) (i₀ : Fin 3)
    (hz : dir i₀ = 0) (hnz : ∃ j, dir j ≠ 0)
    (hcb : ∀ c a d l, ((cb c a d l).2) i₀ = l i₀) :
    (initSweep eps (mkState dir box.base box.max)).tDelta i₀ = none ∧
      (initSweep eps (mkState dir box.base box.max)).tNext i₀ = none ∧
      (∀ f : Fin 3 → Option ℝ, f i₀ = none → (∃ j, f j ≠ none) →
        selectAxis (f 0) (f 1) (f 2) ≠ i₀) ∧
      (sweepImpl gv cb eps csv fuel dir box.base box.max).state.ldi i₀ =
        (initSweep eps (mkState dir box.base box.max)).ldi i₀ := by
  have hm : vecLen (mkState dir box.base box.max) ≠ 0 :=
    ne_of_gt (vecLen_pos _ (by simpa using hnz))
  have hdiv : dir i₀ / vecLen (mkState dir box.base box.max) = 0 := by rw [hz, zero_div]
  have hs1z : ZInv i₀ (box.base i₀) (box.max i₀) eps
      (initSweep eps (mkState dir box.base box.max)) := by
    have h := zinv_init eps (mkState dir box.base box.max) i₀ (by simpa using hz) hm
    simpa using h
  have hc1 : Coherent (initSweep eps (mkState dir box.base box.max)) :=
    coherent_initSweep eps _ hm
  refine ⟨?_, hs1z.nz, ?_, ?_⟩
  · rw [initSweep_tDelta eps _ hm]
    simp only [mkState_vec]
    rw [if_pos hdiv]
  · intro f hf0 hfex he
    obtain ⟨j, hjn⟩ := hfex
    have hor : f 0 ≠ none ∨ f 1 ≠ none ∨ f 2 ≠ none := by
      fin_cases j
      · exact Or.inl hjn
      · exact Or.inr (Or.inl hjn)
      · exact Or.inr (Or.inr hjn)
    have h := selectAxis_isSome (f 0) (f 1) (f 2) hor
    rw [nthOpt_eq f, he] at h
    exact h hf0
  · rw [hs1z.lz]
    simp only [sweepImpl]
    rw [if_neg (by rw [initSweep_max_t]; exact hm)]
    cases csv
    · simp only [Bool.false_eq_true, if_false]
      exact sweepLoop_ldi gv cb eps i₀ _ _ hcb fuel _ hc1 hs1z
    · simp only [if_true]
      have hst := startingCheck_zinv gv cb eps _ i₀ _ _ hcb hc1 hs1z
      by_cases hstop : (startingCheck gv cb eps
          (initSweep eps (mkState dir box.base box.max))).stop = true
      · rw [if_pos hstop]
        exact hst.1
      · have hstop' : (startingCheck gv cb eps
            (initSweep eps (mkState dir box.base box.max))).stop = false := by
          cases h2 : (startingCheck gv cb eps
              (initSweep eps (mkState dir box.base box.max))).stop
          · rfl
          · exact absurd h2 hstop
        rw [if_neg hstop]
        exact sweepLoop_ldi gv cb eps i₀ _ _ hcb fuel _ (hst.2 hstop').1 (hst.2 hstop').2

/-- Witness for C9: axis 1 with direction (1, 0, 0) against the always-solid
oracle and the stop callback. -/
theorem sweep_zero_axis_wit :
    dirX 1 = 0 ∧ (∃ j, dirX j ≠ 0) ∧
      ((initSweep (1/4) (mkState dirX (fun _ => 0) (fun _ => 1))).tDelta 1 = none ∧
        (initSweep (1/4) (mkState dirX (fun _ => 0) (fun _ => 1))).tNext 1 = none ∧
        (∀ f : Fin 3 → Option ℝ, f 1 = none → (∃ j, f j ≠ none) →
          selectAxis (f 0) (f 1) (f 2) ≠ 1) ∧
        (sweepImpl solidGv stopCb (1/4) false 3 dirX (fun _ => 0)
            (fun _ => 1)).state.ldi 1 =
          (initSweep (1/4) (mkState dirX (fun _ => 0) (fun _ => 1))).ldi 1) :=
  ⟨by simp [dirX], ⟨0, by simp [dirX]⟩,
    sweep_zero_axis solidGv ⟨fun _ => 0, fun _ => 1⟩ dirX stopCb (1/4) false 3 1
      (by simp [dirX]) ⟨0, by simp [dirX]⟩ (fun _ _ _ _ => rfl)⟩

end ZeroAxis

section WallScenario

/-- A wall of solid voxels filling the half-space x ≥ k. -/
def wallOracle (k : ℤ) : GetVoxel := fun x _ _ _ _ _ => if k ≤ x then true else false

/-- The cruising state of a unit box moving along axis 0 with speed v > 0:
what every state reached by whole boundary crossings looks like, with c the
current axis-0 leading cell. -/
structure C5P (eps v : ℝ) (b : Fin 3 → ℝ) (c : ℤ) (s : SweepState) : Prop where
  vec : s.vec = fun i => if i = 0 then v else 0
  base : s.base = b
  maxx : s.max = fun i => b i + 1
  stp : s.step = fun _ => 1
  nrm : s.normed = fun i => if i = 0 then 1 else 0
  td0 : s.tDelta 0 = some 1
  td1 : s.tDelta 1 = none
  td2 : s.tDelta 2 = none
  tn0 : s.tNext 0 = some ((c : ℝ) + 1 - (b 0 + 1))
  tn1 : s.tNext 1 = none
  tn2 : s.tNext 2 = none
  ldi0 : s.ldi 0 = c
  ldi1 : s.ldi 1 = leadEdgeToInt (b 1 + 1) 1 eps
  ldi2 : s.ldi 2 = leadEdgeToInt (b 2 + 1) 1 eps
  tri1 : s.tri 1 = trailEdgeToInt (b 1) 1 eps
  tri2 : s.tri 2 = trailEdgeToInt (b 2) 1 eps
  tr1 : s.tr 1 = b 1
  tr2 : s.tr 2 = b 2
  cum : s.cumulative_t = 0
  mt : s.max_t = v

lemma c5_vecLen (v : ℝ) (hv : 0 ≤ v) (b M : Fin 3 → ℝ) :
    vecLen (mkState (fun i => if i = 0 then v else 0) b M) = v := by
  unfold vecLen
  simp only [mkState_vec]
  simp only [show ((0 : Fin 3) = 0) = True by simp, show ((1 : Fin 3) = 0) = False by simp,
    show ((2 : Fin 3) = 0) = False by simp, if_true, if_false]
  rw [show v * v + 0 * 0 + 0 * 0 = v * v by ring]
  exact Real.sqrt_mul_self hv

/-- The initial state of the wall scenario satisfies the cruising predicate
at the starting leading cell. -/
lemma c5_init (eps v : ℝ) (b : Fin 3 → ℝ) (hv : 0 < v) :
    C5P eps v b (leadEdgeToInt (b 0 + 1) 1 eps)
      (initSweep eps (mkState (fun i => if i = 0 then v else 0) b
        (fun i => b i + 1))) := by
  have hm : vecLen (mkState (fun i => if i = 0 then v else 0) b (fun i => b i + 1)) = v :=
    c5_vecLen v hv.le b _
  have hmn : vecLen (mkState (fun i => if i = 0 then v else 0) b (fun i => b i + 1)) ≠ 0 := by
    rw [hm]; exact hv.ne'
  refine ⟨?_, ?_, ?_, ?_, ?_, ?_, ?_, ?_, ?_, ?_, ?_, ?_, ?_, ?_, ?_, ?_, ?_, ?_, ?_, ?_⟩
  · rw [initSweep_vec]; rfl
  · rw [initSweep_base]; rfl
  · rw [initSweep_max]; rfl
  · rw [initSweep_step eps _ hmn]
    funext i
    simp only [mkState_vec]
    by_cases hi : i = 0
    · subst hi; simp [hv.le]
    · simp [hi]
  · rw [initSweep_normed eps _ hmn, hm]
    funext i
    simp only [mkState_vec]
    by_cases hi : i = 0
    · subst hi; simp [div_self hv.ne']
    · simp [hi]
  · rw [initSweep_tDelta eps _ hmn, hm]
    simp [div_self hv.ne']
  · rw [initSweep_tDelta eps _ hmn, hm]
    simp
  · rw [initSweep_tDelta eps _ hmn, hm]
    simp
  · rw [initSweep_tNext eps _ hmn, hm]
    simp [div_self hv.ne', hv.le]
  · rw [initSweep_tNext eps _ hmn, hm]
    simp
  · rw [initSweep_tNext eps _ hmn, hm]
    simp
  · rw [initSweep_ldi eps _ hmn]
    simp [hv.le]
  · rw [initSweep_ldi eps _ hmn]
    simp
  · rw [initSweep_ldi eps _ hmn]
    simp
  · rw [initSweep_tri eps _ hmn]
    simp
  · rw [initSweep_tri eps _ hmn]
    simp
  · rw [initSweep_tr eps _ hmn]
    simp
  · rw [initSweep_tr eps _ hmn]
    simp
  · rw [initSweep_cum]; rfl
  · rw [initSweep_max_t, hm]

/-- One DDA step of the wall scenario: axis 0 is crossed, the leading cell
advances by one, and the crossing parameter is the distance from the lead
edge to the entered cell's near face. -/
lemma c5_step (eps v : ℝ) (b : Fin 3 → ℝ) (c : ℤ) (s : SweepState)
    (h : C5P eps v b c s) :
    (stepForward eps s).1 = 0 ∧ C5P eps v b (c + 1) (stepForward eps s).2 ∧
      (stepForward eps s).2.t = (c : ℝ) + 1 - (b 0 + 1) := by
  have hsel : selectAxis (s.tNext 0) (s.tNext 1) (s.tNext 2) = 0 := by
    rw [h.tn0, h.tn1, h.tn2]
    simp [selectAxis, oLt]
  have hsome : s.tNext (selectAxis (s.tNext 0) (s.tNext 1) (s.tNext 2)) =
      some ((c : ℝ) + 1 - (b 0 + 1)) := by
    rw [hsel]; exact h.tn0
  have hstep := stepForward_of_some eps s _ hsome
  rw [hsel] at hstep
  refine ⟨by rw [hstep], ⟨?_, ?_, ?_, ?_, ?_, ?_, ?_, ?_, ?_, ?_, ?_, ?_, ?_, ?_, ?_,
    ?_, ?_, ?_, ?_, ?_⟩, ?_⟩
  · rw [hstep]; exact h.vec
  · rw [hstep]; exact h.base
  · rw [hstep]; exact h.maxx
  · rw [hstep]; exact h.stp
  · rw [hstep]; exact h.nrm
  · rw [hstep]; exact h.td0
  · rw [hstep]; exact h.td1
  · rw [hstep]; exact h.td2
  · rw [hstep]
    simp only []
    rw [Function.update_same, h.td0]
    simp only [Option.map_some', Option.some.injEq]
    push_cast
    ring
  · rw [hstep]
    simp only []
    rw [Function.update_noteq (show (1 : Fin 3) ≠ 0 by decide)]
    exact h.tn1
  · rw [hstep]
    simp only []
    rw [Function.update_noteq (show (2 : Fin 3) ≠ 0 by decide)]
    exact h.tn2
  · rw [hstep]
    simp only []
    rw [Function.update_same, h.ldi0, h.stp]
  · rw [hstep]
    simp only []
    rw [Function.update_noteq (show (1 : Fin 3) ≠ 0 by decide)]
    exact h.ldi1
  · rw [hstep]
    simp only []
    rw [Function.update_noteq (show (2 : Fin 3) ≠ 0 by decide)]
    exact h.ldi2
  · rw [hstep]
    simp only []
    simp [h.nrm, h.tr1, h.stp]
  · rw [hstep]
    simp only []
    simp [h.nrm, h.tr2, h.stp]
  · rw [hstep]
    simp only []
    simp [h.nrm, h.tr1]
  · rw [hstep]
    simp only []
    simp [h.nrm, h.tr2]
  · rw [hstep]; exact h.cum
  · rw [hstep]; exact h.mt
  · rw [hstep]

lemma axisRange_mem_start (a b st : ℤ) (h : 1 ≤ (b - a) * st) : a ∈ axisRange a b st := by
  unfold axisRange
  apply List.mem_map.mpr
  refine ⟨0, ?_, by push_cast; ring⟩
  rw [List.mem_range]
  omega

/-- On an axis-0 crossing with step 1 every enumerated cell has x = ldi[0]. -/
lemma faceCoords_axis0_mem (s : SweepState) (hst : s.step 0 = 1) (p : ℤ × ℤ × ℤ)
    (hp : p ∈ faceCoords s 0) : p.1 = s.ldi 0 := by
  rcases p with ⟨x, y, z⟩
  unfold faceCoords at hp
  obtain ⟨hx, -⟩ := List.mem_product.mp hp
  rw [if_pos rfl, hst] at hx
  simp [axisRange] at hx
  omega

/-- Before the wall is reached the collision query reports empty. -/
lemma c5_noHit (k : ℤ) (s : SweepState) (hst : s.step 0 = 1) (hlt : s.ldi 0 < k) :
    checkCollision (wallOracle k) s 0 = false := by
  unfold checkCollision
  rw [List.any_eq_false]
  intro p hp
  have hx := faceCoords_axis0_mem s hst p hp
  simp only [oracleAt, wallOracle]
  rw [if_neg (by omega : ¬ k ≤ p.1)]
  simp

/-- When the leading cell reaches the wall and the cross-section ranges are
nonempty, the collision query reports solid. -/
lemma c5_hit (k : ℤ) (s : SweepState) (hst : s.step = fun _ => 1)
    (hl0 : s.ldi 0 = k) (h1 : s.tri 1 ≤ s.ldi 1) (h2 : s.tri 2 ≤ s.ldi 2) :
    checkCollision (wallOracle k) s 0 = true := by
  unfold checkCollision
  rw [List.any_eq_true]
  refine ⟨(s.ldi 0, s.tri 1, s.tri 2), ?_, ?_⟩
  · unfold faceCoords
    apply List.mem_product.mpr
    refine ⟨?_, List.mem_product.mpr ⟨?_, ?_⟩⟩
    · rw [if_pos rfl]
      apply axisRange_mem_start
      rw [hst]
      ring_nf
      norm_num
    · rw [if_neg (by decide : ¬ (0 : Fin 3) = 1)]
      apply axisRange_mem_start
      rw [hst]
      simp only []
      omega
    · rw [if_neg (by decide : ¬ (0 : Fin 3) = 2)]
      apply axisRange_mem_start
      rw [hst]
      simp only []
      omega
  · simp only [oracleAt, wallOracle]
    rw [if_pos (by omega : k ≤ s.ldi 0)]

/-- handleCollision when the callback stops: the crossed leading edge is
snapped with round and the crossing distance is added to the total. -/
lemma handleCollision_stop (cb : Callback) (eps : ℝ) (s₁ : SweepState) (axis : Fin 3)
    (hcb : (cb (s₁.cumulative_t + s₁.t) axis (s₁.step axis)
      (fun i => s₁.vec i - s₁.vec i * (s₁.t / s₁.max_t))).1 = true) :
    handleCollision cb eps s₁ axis =
      (true,
        { s₁ with
          cumulative_t := s₁.cumulative_t + s₁.t
          base := if 0 < s₁.step axis
            then (fun i => s₁.base i + s₁.vec i * (s₁.t / s₁.max_t))
            else Function.update (fun i => s₁.base i + s₁.vec i * (s₁.t / s₁.max_t)) axis
              (round ((fun i => s₁.base i + s₁.vec i * (s₁.t / s₁.max_t)) axis))
          max := if 0 < s₁.step axis
            then Function.update (fun i => s₁.max i + s₁.vec i * (s₁.t / s₁.max_t)) axis
              (round ((fun i => s₁.max i + s₁.vec i * (s₁.t / s₁.max_t)) axis))
            else (fun i => s₁.max i + s₁.vec i * (s₁.t / s₁.max_t)) },
        ⟨s₁.cumulative_t + s₁.t, axis, s₁.step axis,
          fun i => s₁.vec i - s₁.vec i * (s₁.t / s₁.max_t)⟩) := by
  simp only [handleCollision]
  rw [hcb]
  simp

/-- The cruising run: from any cruising state strictly before the wall, with
enough fuel, the loop reaches the wall, fires the callback once and stops
with the crossed leading edge snapped exactly onto k. -/
lemma c5_cruise (eps v : ℝ) (b : Fin 3 → ℝ) (k : ℤ) (cb : Callback)
    (heps2 : eps ≤ 1/4) (hv : 0 < v)
    (hreach : (k : ℝ) - (b 0 + 1) ≤ v)
    (hcb : ∀ c a d l, (cb c a d l).1 = true) :
    ∀ (n : ℕ) (c : ℤ) (s : SweepState), C5P eps v b c s → c < k → (k - c).toNat ≤ n →
      ∃ s₂ ev qs, sweepLoop (wallOracle k) cb eps n s =
          ⟨(k : ℝ) - (b 0 + 1), s₂, [ev], qs⟩ ∧
        s₂.max 0 = (k : ℝ) := by
  intro n
  induction n with
  | zero => intro c s _ hck hn; omega
  | succ n ih =>
    intro c s hP hck hn
    obtain ⟨hfst, hP₁, ht₁⟩ := c5_step eps v b c s hP
    rcases hp : stepForward eps s with ⟨a, s₁⟩
    rw [hp] at hfst hP₁ ht₁
    simp only [] at hfst hP₁ ht₁
    subst hfst
    have hle : s₁.t ≤ s₁.max_t := by
      rw [ht₁, hP₁.mt]
      have hck' : (c : ℝ) + 1 ≤ (k : ℝ) := by exact_mod_cast hck
      linarith
    by_cases hck1 : c + 1 < k
    · have hcc : checkCollision (wallOracle k) s₁ 0 = false := by
        apply c5_noHit k s₁ (by rw [hP₁.stp]) (by rw [hP₁.ldi0]; omega)
      obtain ⟨s₂, ev, qs, hloop, hmax⟩ := ih (c + 1) s₁ hP₁ hck1 (by omega)
      refine ⟨s₂, ev, queries (wallOracle k) s₁ 0 ++ qs, ?_, hmax⟩
      rw [sweepLoop_skip (wallOracle k) cb eps n s 0 s₁ hp hle hcc, hloop]
    · have hkc : c + 1 = k := by omega
      have htri1 : s₁.tri 1 ≤ s₁.ldi 1 := by
        rw [hP₁.tri1, hP₁.ldi1]
        exact trail_le_lead eps (b 1) (b 1 + 1) (by linarith)
      have htri2 : s₁.tri 2 ≤ s₁.ldi 2 := by
        rw [hP₁.tri2, hP₁.ldi2]
        exact trail_le_lead eps (b 2) (b 2 + 1) (by linarith)
      have hcc : checkCollision (wallOracle k) s₁ 0 = true :=
        c5_hit k s₁ hP₁.stp (by rw [hP₁.ldi0]; omega) htri1 htri2
      have hhc := handleCollision_stop cb eps s₁ 0 (hcb _ _ _ _)
      rw [sweepLoop_hit_stop (wallOracle k) cb eps n s 0 s₁ _ _ hp hle hcc hhc]
      have hcum : s₁.cumulative_t + s₁.t = (k : ℝ) - (b 0 + 1) := by
        rw [hP₁.cum, ht₁, zero_add]
        have : ((c : ℝ) + 1) = (k : ℝ) := by exact_mod_cast hkc
        linarith
      have hstep0 : (0 : ℤ) < s₁.step 0 := by rw [hP₁.stp]; norm_num
      have hX : s₁.max 0 = b 0 + 1 := by rw [hP₁.maxx]
      have hV : s₁.vec 0 = v := by rw [hP₁.vec]; simp
      have hck' : ((c : ℝ) + 1) = (k : ℝ) := by exact_mod_cast hkc
      have hmax1 : s₁.max 0 + s₁.vec 0 * (s₁.t / s₁.max_t) = ((k : ℤ) : ℝ) := by
        rw [hX, hV, ht₁, hP₁.mt, mul_comm v _, div_mul_cancel₀ _ hv.ne']
        linarith
      refine ⟨(handleCollision cb eps s₁ 0).2.1, (handleCollision cb eps s₁ 0).2.2,
        queries (wallOracle k) s₁ 0, ?_, ?_⟩
      · rw [hhc]
        simp only []
        rw [hcum]
      · rw [hhc]
        simp only []
        rw [if_pos hstep0, Function.update_same]
        rw [hmax1, round_intCast]

/-- Claim C5: a unit box moving along axis 0 with speed v toward a wall of
solid voxels whose near face is at integer coordinate k, with a callback that
stops at the first collision, ends with its leading edge snapped (via round)
exactly onto k — no floating overshoot — and the returned distance is k minus
the starting leading-edge coordinate b 0 + 1. -/
theorem sweep_wall_snap (b : Fin 3 → ℝ) (v eps : ℝ) (k : ℤ) (cb : Callback) (fuel : ℕ)
    (heps2 : eps ≤ 1/4) (hv : 0 < v)
    (hlt : leadEdgeToInt (b 0 + 1) 1 eps < k)
    (hreach : (k : ℝ) - (b 0 + 1) ≤ v)
    (hfuel : (k - leadEdgeToInt (b 0 + 1) 1 eps).toNat ≤ fuel)
    (hcb : ∀ c a d l, (cb c a d l).1 = true) :
    (sweep (wallOracle k) ⟨b, fun i => b i + 1⟩ (fun i => if i = 0 then v else 0) cb
        false eps false fuel).dist = (k : ℝ) - (b 0 + 1) ∧
      (sweep (wallOracle k) ⟨b, fun i => b i + 1⟩ (fun i => if i = 0 then v else 0) cb
        false eps false fuel).box.max 0 = (k : ℝ) := by
  have hP := c5_init eps v b hv
  obtain ⟨s₂, ev, qs, hloop, hmax⟩ := c5_cruise eps v b k cb heps2 hv hreach hcb fuel
    (leadEdgeToInt (b 0 + 1) 1 eps) _ hP hlt hfuel
  have himpl : sweepImpl (wallOracle k) cb eps false fuel
      (fun i => if i = 0 then v else 0) b (fun i => b i + 1) =
      ⟨(k : ℝ) - (b 0 + 1), s₂, [ev], qs⟩ := by
    simp only [sweepImpl]
    rw [if_neg (by rw [initSweep_max_t, c5_vecLen v hv.le]; exact hv.ne')]
    simp only [Bool.false_eq_true, if_false]
    exact hloop
  rw [sweep_eq_of_impl (wallOracle k) ⟨b, fun i => b i + 1⟩
    (fun i => if i = 0 then v else 0) cb eps false fuel _ _ _ _ himpl]
  refine ⟨rfl, ?_⟩
  simp only [if_true]
  rw [if_pos hv, hmax]
  ring

/-- Witness for C5: a unit box at the origin, speed 5, wall at x = 3. -/
theorem sweep_wall_snap_wit :
    ((1 : ℝ)/4 ≤ 1/4) ∧ (0 : ℝ) < 5 ∧
      leadEdgeToInt ((0 : ℝ) + 1) 1 (1/4) < 3 ∧
      ((3 : ℤ) : ℝ) - ((0 : ℝ) + 1) ≤ 5 ∧
      ((3 : ℤ) - leadEdgeToInt ((0 : ℝ) + 1) 1 (1/4)).toNat ≤ 4 ∧
      (sweep (wallOracle 3) ⟨fun _ => 0, fun i => (fun _ => (0 : ℝ)) i + 1⟩
          (fun i => if i = 0 then 5 else 0) stopCb false (1/4) false 4).dist =
        ((3 : ℤ) : ℝ) - ((fun _ => (0 : ℝ)) 0 + 1) ∧
      (sweep (wallOracle 3) ⟨fun _ => 0, fun i => (fun _ => (0 : ℝ)) i + 1⟩
          (fun i => if i = 0 then 5 else 0) stopCb false (1/4) false 4).box.max 0 =
        ((3 : ℤ) : ℝ) := by
  have hfl : leadEdgeToInt ((0 : ℝ) + 1) 1 (1/4) = 0 := by
    unfold leadEdgeToInt
    norm_num
  have h1 : leadEdgeToInt ((fun _ => (0 : ℝ)) 0 + 1) 1 (1/4) < 3 := by
    rw [show ((fun _ => (0 : ℝ)) 0 + 1) = (0 : ℝ) + 1 from rfl, hfl]
    norm_num
  have h2 : ((3 : ℤ) : ℝ) - ((fun _ => (0 : ℝ)) 0 + 1) ≤ 5 := by norm_num
  have h3 : ((3 : ℤ) - leadEdgeToInt ((fun _ => (0 : ℝ)) 0 + 1) 1 (1/4)).toNat ≤ 4 := by
    rw [show ((fun _ => (0 : ℝ)) 0 + 1) = (0 : ℝ) + 1 from rfl, hfl]
    norm_num
  refine ⟨le_rfl, by norm_num, by rw [show ((0:ℝ) + 1) = ((fun _ => (0:ℝ)) 0 + 1) from rfl]; exact h1,
    by norm_num, ?_, ?_, ?_⟩
  · rw [show ((0:ℝ) + 1) = ((fun _ => (0:ℝ)) 0 + 1) from rfl]
    exact h3
  · exact (sweep_wall_snap (fun _ => 0) 5 (1/4) 3 stopCb 4 le_rfl (by norm_num)
      h1 h2 h3 (fun _ _ _ _ => rfl)).1
  · exact (sweep_wall_snap (fun _ => 0) 5 (1/4) 3 stopCb 4 le_rfl (by norm_num)
      h1 h2 h3 (fun _ _ _ _ => rfl)).2

end WallScenario

section SlabScenario

/-- A half-height slab at integer row j: solid only in the lower half of
that row, i.e. only when the queried fractional depth dy is below 1/2. -/
noncomputable def slabOracle (j : ℤ) : GetVoxel :=
  fun _ y _ _ dy _ => if y = j ∧ dy < 1/2 then true else false

/-- The cruising state of a box descending along axis 1 with speed v > 0,
with c the current axis-1 leading (bottom) cell. -/
structure C6P (eps v : ℝ) (B M : Fin 3 → ℝ) (c : ℤ) (s : SweepState) : Prop where
  vec : s.vec = fun i => if i = 1 then -v else 0
  base : s.base = B
  maxx : s.max = M
  st0 : s.step 0 = 1
  st1 : s.step 1 = -1
  st2 : s.step 2 = 1
  nrm : s.normed = fun i => if i = 1 then -1 else 0
  td0 : s.tDelta 0 = none
  td1 : s.tDelta 1 = some 1
  td2 : s.tDelta 2 = none
  tn0 : s.tNext 0 = none
  tn1 : s.tNext 1 = some (B 1 - (c : ℝ))
  tn2 : s.tNext 2 = none
  ldi0 : s.ldi 0 = leadEdgeToInt (M 0) 1 eps
  ldi1 : s.ldi 1 = c
  ldi2 : s.ldi 2 = leadEdgeToInt (M 2) 1 eps
  tri0 : s.tri 0 = trailEdgeToInt (B 0) 1 eps
  tri2 : s.tri 2 = trailEdgeToInt (B 2) 1 eps
  tr0 : s.tr 0 = B 0
  tr2 : s.tr 2 = B 2
  cum : s.cumulative_t = 0
  mt : s.max_t = v

lemma c6_vecLen (v : ℝ) (hv : 0 ≤ v) (B M : Fin 3 → ℝ) :
    vecLen (mkState (fun i => if i = 1 then -v else 0) B M) = v := by
  unfold vecLen
  simp only [mkState_vec]
  simp only [show ((0 : Fin 3) = 1) = False by simp, show ((1 : Fin 3) = 1) = True by simp,
    show ((2 : Fin 3) = 1) = False by simp, if_true, if_false]
  rw [show (0 : ℝ) * 0 + -v * -v + 0 * 0 = v * v by ring]
  exact Real.sqrt_mul_self hv

/-- The initial state of the slab scenario satisfies the cruising predicate
at the starting axis-1 leading cell ⌊B 1 + eps⌋. -/
lemma c6_init (eps v : ℝ) (B M : Fin 3 → ℝ) (hv : 0 < v) :
    C6P eps v B M (leadEdgeToInt (B 1) (-1) eps)
      (initSweep eps (mkState (fun i => if i = 1 then -v else 0) B M)) := by
  have hm : vecLen (mkState (fun i => if i = 1 then -v else 0) B M) = v :=
    c6_vecLen v hv.le B M
  have hmn : vecLen (mkState (fun i => if i = 1 then -v else 0) B M) ≠ 0 := by
    rw [hm]; exact hv.ne'
  have hneg : ¬ (0 : ℝ) ≤ -v := by linarith
  have hdv : -v / v = -1 := by rw [neg_div, div_self hv.ne']
  refine ⟨?_, ?_, ?_, ?_, ?_, ?_, ?_, ?_, ?_, ?_, ?_, ?_, ?_, ?_, ?_, ?_, ?_, ?_, ?_,
    ?_, ?_, ?_⟩
  · rw [initSweep_vec]; rfl
  · rw [initSweep_base]; rfl
  · rw [initSweep_max]; rfl
  · rw [initSweep_step eps _ hmn]; simp
  · rw [initSweep_step eps _ hmn]
    simp only [mkState_vec, show ((1 : Fin 3) = 1) = True by simp, if_true]
    rw [if_neg hneg]
  · rw [initSweep_step eps _ hmn]; simp
  · rw [initSweep_normed eps _ hmn, hm]
    funext i
    simp only [mkState_vec]
    by_cases hi : i = 1
    · subst hi; simp [hdv]
    · simp [hi]
  · rw [initSweep_tDelta eps _ hmn, hm]
    simp
  · rw [initSweep_tDelta eps _ hmn, hm]
    simp only [mkState_vec, show ((1 : Fin 3) = 1) = True by simp, if_true]
    rw [hdv]
    norm_num
  · rw [initSweep_tDelta eps _ hmn, hm]
    simp
  · rw [initSweep_tNext eps _ hmn, hm]
    simp
  · rw [initSweep_tNext eps _ hmn, hm]
    simp only [mkState_vec, mkState_base, show ((1 : Fin 3) = 1) = True by simp, if_true]
    rw [hdv]
    rw [if_neg (by norm_num : ¬ (-1 : ℝ) = 0), if_neg hneg]
    norm_num
  · rw [initSweep_tNext eps _ hmn, hm]
    simp
  · rw [initSweep_ldi eps _ hmn]
    simp
  · rw [initSweep_ldi eps _ hmn]
    simp only [mkState_vec, mkState_base, show ((1 : Fin 3) = 1) = True by simp, if_true]
    rw [if_neg hneg]
  · rw [initSweep_ldi eps _ hmn]
    simp
  · rw [initSweep_tri eps _ hmn]
    simp
  · rw [initSweep_tri eps _ hmn]
    simp
  · rw [initSweep_tr eps _ hmn]
    simp
  · rw [initSweep_tr eps _ hmn]
    simp
  · rw [initSweep_cum]; rfl
  · rw [initSweep_max_t, hm]

/-- One DDA step of the slab scenario: axis 1 is crossed, the leading cell
descends by one, and the crossing parameter is the distance fallen when the
lead edge reaches the top of the entered cell. -/
lemma c6_step (eps v : ℝ) (B M : Fin 3 → ℝ) (c : ℤ) (s : SweepState)
    (h : C6P eps v B M c s) :
    (stepForward eps s).1 = 1 ∧ C6P eps v B M (c - 1) (stepForward eps s).2 ∧
      (stepForward eps s).2.t = B 1 - (c : ℝ) := by
  have hsel : selectAxis (s.tNext 0) (s.tNext 1) (s.tNext 2) = 1 := by
    rw [h.tn0, h.tn1, h.tn2]
    simp [selectAxis, oLt]
  have hsome : s.tNext (selectAxis (s.tNext 0) (s.tNext 1) (s.tNext 2)) =
      some (B 1 - (c : ℝ)) := by
    rw [hsel]; exact h.tn1
  have hstep := stepForward_of_some eps s _ hsome
  rw [hsel] at hstep
  refine ⟨by rw [hstep], ⟨?_, ?_, ?_, ?_, ?_, ?_, ?_, ?_, ?_, ?_, ?_, ?_, ?_, ?_, ?_,
    ?_, ?_, ?_, ?_, ?_, ?_, ?_⟩, ?_⟩
  · rw [hstep]; exact h.vec
  · rw [hstep]; exact h.base
  · rw [hstep]; exact h.maxx
  · rw [hstep]; exact h.st0
  · rw [hstep]; exact h.st1
  · rw [hstep]; exact h.st2
  · rw [hstep]; exact h.nrm
  · rw [hstep]; exact h.td0
  · rw [hstep]; exact h.td1
  · rw [hstep]; exact h.td2
  · rw [hstep]
    simp only []
    rw [Function.update_noteq (show (0 : Fin 3) ≠ 1 by decide)]
    exact h.tn0
  · rw [hstep]
    simp only []
    rw [Function.update_same, h.td1]
    simp only [Option.map_some', Option.some.injEq]
    push_cast
    ring
  · rw [hstep]
    simp only []
    rw [Function.update_noteq (show (2 : Fin 3) ≠ 1 by decide)]
    exact h.tn2
  · rw [hstep]
    simp only []
    rw [Function.update_noteq (show (0 : Fin 3) ≠ 1 by decide)]
    exact h.ldi0
  · rw [hstep]
    simp only []
    rw [Function.update_same, h.ldi1, h.st1]
    ring
  · rw [hstep]
    simp only []
    rw [Function.update_noteq (show (2 : Fin 3) ≠ 1 by decide)]
    exact h.ldi2
  · rw [hstep]
    simp only []
    simp [h.nrm, h.tr0, h.st0]
  · rw [hstep]
    simp only []
    simp [h.nrm, h.tr2, h.st2]
  · rw [hstep]
    simp only []
    simp [h.nrm, h.tr0]
  · rw [hstep]
    simp only []
    simp [h.nrm, h.tr2]
  · rw [hstep]; exact h.cum
  · rw [hstep]; exact h.mt
  · rw [hstep]

/-- On an axis-1 crossing with step -1 every enumerated cell has
y = ldi[1]. -/
lemma faceCoords_axis1_mem (s : SweepState) (hst : s.step 1 = -1) (p : ℤ × ℤ × ℤ)
    (hp : p ∈ faceCoords s 1) : p.2.1 = s.ldi 1 := by
  rcases p with ⟨x, y, z⟩
  unfold faceCoords at hp
  obtain ⟨-, hyz⟩ := List.mem_product.mp hp
  obtain ⟨hy, -⟩ := List.mem_product.mp hyz
  rw [if_pos rfl, hst] at hy
  simp [axisRange] at hy
  show y = s.ldi 1
  omega

/-- Away from row j the slab collision query reports empty. -/
lemma c6_noHit (j : ℤ) (s : SweepState) (hst : s.step 1 = -1) (hne : s.ldi 1 ≠ j) :
    checkCollision (slabOracle j) s 1 = false := by
  unfold checkCollision
  rw [List.any_eq_false]
  intro p hp
  have hy := faceCoords_axis1_mem s hst p hp
  simp only [oracleAt, slabOracle]
  rw [if_neg (by rintro ⟨h1, -⟩; exact hne (by omega))]
  simp

/-- On row j with a shallow lead edge and nonempty cross-section ranges, the
slab collision query reports solid. -/
lemma c6_hit (j : ℤ) (B1v : ℝ) (s : SweepState)
    (hst0 : s.step 0 = 1) (hst1 : s.step 1 = -1) (hst2 : s.step 2 = 1)
    (hl1 : s.ldi 1 = j) (h0 : s.tri 0 ≤ s.ldi 0) (h2 : s.tri 2 ≤ s.ldi 2)
    (hb : s.base 1 = B1v) (hfr : Int.fract B1v < 1/2) :
    checkCollision (slabOracle j) s 1 = true := by
  unfold checkCollision
  rw [List.any_eq_true]
  refine ⟨(s.tri 0, s.ldi 1, s.tri 2), ?_, ?_⟩
  · unfold faceCoords
    apply List.mem_product.mpr
    refine ⟨?_, List.mem_product.mpr ⟨?_, ?_⟩⟩
    · rw [if_neg (by decide : ¬ (1 : Fin 3) = 0), hst0]
      apply axisRange_mem_start
      omega
    · rw [if_pos rfl, hst1]
      apply axisRange_mem_start
      ring_nf
      norm_num
    · rw [if_neg (by decide : ¬ (1 : Fin 3) = 2), hst2]
      apply axisRange_mem_start
      omega
  · simp only [oracleAt, slabOracle]
    rw [if_pos]
    refine ⟨hl1, ?_⟩
    unfold fracAt leadPos
    rw [if_neg (by rw [hst1]; norm_num), hb, hl1, Int.fract_sub_int]
    exact hfr

/-- If the lead edge's fractional depth is at least 1/2, the slab oracle
misses every cell the current placement could query. -/
lemma c6_missesAll (j : ℤ) (B1v : ℝ) (s : SweepState) (hst : s.step 1 = -1)
    (hb : s.base 1 = B1v) (hfr : ¬ Int.fract B1v < 1/2) :
    missesAll (slabOracle j) s := by
  intro x y z
  simp only [slabOracle]
  split_ifs with hcond
  · exfalso
    obtain ⟨hy, hdy⟩ := hcond
    subst hy
    apply hfr
    unfold fracAt leadPos at hdy
    rw [if_neg (by rw [hst]; norm_num), hb, Int.fract_sub_int] at hdy
    exact hdy
  · rfl

/-- The descending cruise: from any cruising state strictly above row j with
a shallow lead edge, with enough fuel, the loop reaches row j and the
callback fires. -/
lemma c6_cruise (eps v : ℝ) (B M : Fin 3 → ℝ) (j : ℤ) (cb : Callback)
    (hbox : ∀ i, B i + 2 * eps ≤ M i) (hv : 0 < v)
    (hreach : B 1 - (j : ℝ) - 1 ≤ v)
    (hfr : Int.fract (B 1) < 1/2) :
    ∀ (n : ℕ) (c : ℤ) (s : SweepState), C6P eps v B M c s → j < c → (c - j).toNat ≤ n →
      (sweepLoop (slabOracle j) cb eps n s).events ≠ [] := by
  intro n
  induction n with
  | zero => intro c s _ hjc hn; omega
  | succ n ih =>
    intro c s hP hjc hn
    obtain ⟨hfst, hP₁, ht₁⟩ := c6_step eps v B M c s hP
    rcases hp : stepForward eps s with ⟨a, s₁⟩
    rw [hp] at hfst hP₁ ht₁
    simp only [] at hfst hP₁ ht₁
    subst hfst
    have hle : s₁.t ≤ s₁.max_t := by
      rw [ht₁, hP₁.mt]
      have hjc' : (j : ℝ) + 1 ≤ (c : ℝ) := by exact_mod_cast hjc
      linarith
    by_cases hjc1 : j < c - 1
    · have hcc : checkCollision (slabOracle j) s₁ 1 = false := by
        apply c6_noHit j s₁ hP₁.st1
        rw [hP₁.ldi1]
        omega
      have hne := ih (c - 1) s₁ hP₁ hjc1 (by omega)
      rw [sweepLoop_skip (slabOracle j) cb eps n s 1 s₁ hp hle hcc]
      exact hne
    · have hjc2 : c - 1 = j := by omega
      have htri0 : s₁.tri 0 ≤ s₁.ldi 0 := by
        rw [hP₁.tri0, hP₁.ldi0]
        exact trail_le_lead eps (B 0) (M 0) (hbox 0)
      have htri2 : s₁.tri 2 ≤ s₁.ldi 2 := by
        rw [hP₁.tri2, hP₁.ldi2]
        exact trail_le_lead eps (B 2) (M 2) (hbox 2)
      have hcc : checkCollision (slabOracle j) s₁ 1 = true :=
        c6_hit j (B 1) s₁ hP₁.st0 hP₁.st1 hP₁.st2 (by rw [hP₁.ldi1]; omega)
          htri0 htri2 (by rw [hP₁.base]) hfr
      rcases hhc : handleCollision cb eps s₁ 1 with ⟨flag, s₂, ev⟩
      cases flag
      · rw [sweepLoop_hit_cont (slabOracle j) cb eps n s 1 s₁ s₂ ev hp hle hcc hhc]
        simp
      · rw [sweepLoop_hit_stop (slabOracle j) cb eps n s 1 s₁ s₂ ev hp hle hcc hhc]
        simp

/-- The events of a public translating-or-not sweep call without the
starting-voxel check are exactly the main loop's events. -/
lemma sweep_events_eq (gv : GetVoxel) (bx : Box) (dir : Fin 3 → ℝ) (cb : Callback)
    (nt : Bool) (eps : ℝ) (fuel : ℕ)
    (hmt : (initSweep eps (mkState dir bx.base bx.max)).max_t ≠ 0) :
    (sweep gv bx dir cb nt eps false fuel).cbEvents =
      (sweepLoop gv cb eps fuel (initSweep eps (mkState dir bx.base bx.max))).events := by
  cases nt <;> simp only [sweep, sweepImpl] <;> rw [if_neg hmt] <;>
    simp only [Bool.false_eq_true, if_false, if_true]

/-- Claim C6: the fractional oracle arguments are the fractional parts of
leading edge minus queried cell, hence always in [0,1); and a box descending
along axis 1 onto a half-height slab at row j (solid only when dy < 1/2)
collides — fires the callback — exactly when the lead edge's fractional
depth within its cell is below 1/2, and passes through otherwise. -/
theorem sweep_frac_args (B M : Fin 3 → ℝ) (v eps : ℝ) (j : ℤ) (cb : Callback) (fuel : ℕ)
    (heps1 : 0 < eps) (heps2 : eps ≤ 1/4)
    (hbox : ∀ i, B i + 2 * eps ≤ M i) (hv : 0 < v)
    (habove : j < leadEdgeToInt (B 1) (-1) eps)
    (hreach : B 1 - (j : ℝ) - 1 ≤ v)
    (hfuel : (leadEdgeToInt (B 1) (-1) eps - j).toNat + ⌈v⌉.toNat + 3 ≤ fuel) :
    (∀ (s : SweepState) (i : Fin 3) (c : ℤ),
        fracAt s i c = Int.fract (leadPos s i - (c : ℝ)) ∧
        0 ≤ fracAt s i c ∧ fracAt s i c < 1) ∧
      ((sweep (slabOracle j) ⟨B, M⟩ (fun i => if i = 1 then -v else 0) cb
          false eps false fuel).cbEvents ≠ [] ↔ Int.fract (B 1) < 1/2) := by
  refine ⟨fun s i c => ⟨rfl, Int.fract_nonneg _, Int.fract_lt_one _⟩, ?_⟩
  have hm : vecLen (mkState (fun i => if i = 1 then -v else 0) B M) = v :=
    c6_vecLen v hv.le B M
  have hmn : vecLen (mkState (fun i => if i = 1 then -v else 0) B M) ≠ 0 := by
    rw [hm]; exact hv.ne'
  have hmt : (initSweep eps (mkState (fun i => if i = 1 then -v else 0) B M)).max_t ≠ 0 := by
    rw [initSweep_max_t, hm]; exact hv.ne'
  have hP := c6_init eps v B M hv
  have hev := sweep_events_eq (slabOracle j) ⟨B, M⟩ (fun i => if i = 1 then -v else 0)
    cb false eps fuel hmt
  rw [hev]
  by_cases hfr : Int.fract (B 1) < 1/2
  · refine iff_of_true ?_ hfr
    apply c6_cruise eps v B M j cb hbox hv hreach hfr fuel
      (leadEdgeToInt (B 1) (-1) eps) _ hP habove
    omega
  · have hmiss : missesAll (slabOracle j)
        (initSweep eps (mkState (fun i => if i = 1 then -v else 0) B M)) :=
      c6_missesAll j (B 1) _ hP.st1 (by rw [hP.base]) hfr
    have hC : Coherent (initSweep eps (mkState (fun i => if i = 1 then -v else 0) B M)) :=
      coherent_initSweep eps _ hmn
    have hf0 : axisFuel (initSweep eps (mkState (fun i => if i = 1 then -v else 0) B M)) 0
        = 0 := by
      simp [axisFuel, hP.tn0, hP.td0]
    have hf2 : axisFuel (initSweep eps (mkState (fun i => if i = 1 then -v else 0) B M)) 2
        = 0 := by
      simp [axisFuel, hP.tn2, hP.td2]
    have hdelta : (-1 : ℝ) ≤ B 1 - (leadEdgeToInt (B 1) (-1) eps : ℝ) := by
      unfold leadEdgeToInt
      have hfl := Int.floor_le (B 1 - ((-1 : ℤ) : ℝ) * eps)
      push_cast at hfl ⊢
      linarith
    have hf1 : axisFuel (initSweep eps (mkState (fun i => if i = 1 then -v else 0) B M)) 1
        ≤ ⌈v⌉.toNat + 2 := by
      simp only [axisFuel, hP.tn1, hP.td1, hP.mt]
      split_ifs with hcase
      · have hceil : ⌈(v - (B 1 - ((leadEdgeToInt (B 1) (-1) eps : ℤ) : ℝ))) / 1⌉
            ≤ ⌈v⌉ + 1 := by
          rw [div_one]
          apply Int.ceil_le.mpr
          push_cast
          have hlc := Int.le_ceil v
          linarith
        have := Int.toNat_le_toNat hceil
        have h2 : (⌈v⌉ + 1).toNat ≤ ⌈v⌉.toNat + 1 := by omega
        omega
      · omega
    have hmu : loopMeasure (initSweep eps (mkState (fun i => if i = 1 then -v else 0) B M))
        < fuel := by
      unfold loopMeasure
      rw [hf0, hf2]
      omega
    obtain ⟨s', qs, hloop, -, -⟩ := sweepLoop_noHit (slabOracle j) cb eps fuel
      (initSweep eps (mkState (fun i => if i = 1 then -v else 0) B M)) hC hmiss hmu
    rw [hloop]
    simp only []
    exact iff_of_false (by simp) hfr

/-- Witness for C6: a unit-footprint box with lead edge at y = 32/5 (depth
2/5 inside row 6) descending at speed 2 onto the half-slab at row 5. -/
theorem sweep_frac_args_wit :
    (0 : ℝ) < 1/4 ∧ (0 : ℝ) < 2 ∧
      (5 : ℤ) < leadEdgeToInt ((32 : ℝ)/5) (-1) (1/4) ∧
      (32 : ℝ)/5 - ((5 : ℤ) : ℝ) - 1 ≤ 2 ∧
      (leadEdgeToInt ((32 : ℝ)/5) (-1) (1/4) - 5).toNat + ⌈(2 : ℝ)⌉.toNat + 3 ≤ 6 ∧
      (sweep (slabOracle 5) ⟨fun _ => 32/5, fun _ => 37/5⟩
          (fun i => if i = 1 then -(2 : ℝ) else 0) stopCb false (1/4) false 6).cbEvents
        ≠ [] := by
  have hfl : leadEdgeToInt ((32 : ℝ)/5) (-1) (1/4) = 6 := by
    unfold leadEdgeToInt
    norm_num
  have h1 : (5 : ℤ) < leadEdgeToInt ((fun _ => (32 : ℝ)/5) 1) (-1) (1/4) := by
    rw [show ((fun _ => (32 : ℝ)/5) 1) = (32 : ℝ)/5 from rfl, hfl]
    norm_num
  have h3 : (leadEdgeToInt ((fun _ => (32 : ℝ)/5) 1) (-1) (1/4) - 5).toNat
      + ⌈(2 : ℝ)⌉.toNat + 3 ≤ 6 := by
    rw [show ((fun _ => (32 : ℝ)/5) 1) = (32 : ℝ)/5 from rfl, hfl,
      show ⌈(2 : ℝ)⌉ = 2 by norm_num]
    decide
  have h2 : ((fun _ => (32 : ℝ)/5) 1) - ((5 : ℤ) : ℝ) - 1 ≤ 2 := by norm_num
  have hfrac : Int.fract ((fun _ => (32 : ℝ)/5) 1) < 1/2 := by
    show Int.fract ((32 : ℝ)/5) < 1/2
    unfold Int.fract
    rw [show ⌊(32 : ℝ)/5⌋ = 6 by norm_num]
    norm_num
  refine ⟨by norm_num, by norm_num,
    by rw [show (32 : ℝ)/5 = ((fun _ => (32 : ℝ)/5) 1) from rfl]; exact h1,
    by norm_num, ?_, ?_⟩
  · rw [show (32 : ℝ)/5 = ((fun _ => (32 : ℝ)/5) 1) from rfl]
    exact h3
  · exact ((sweep_frac_args (fun _ => 32/5) (fun _ => 37/5) 2 (1/4) 5 stopCb 6
      (by norm_num) le_rfl (fun i => by norm_num) (by norm_num) h1 h2 h3).2).mpr hfrac

end SlabScenario

end VoxelSweep
